import Mathlib

/-!
Verification development for the HubSpot-list -> Avoma-transcript -> webhook
ingestion pipeline (source: avoma_plain_text.py).

The Python source is dynamically typed; we embed its payloads as a `Json`
inductive and translate the Python expression semantics that the code
actually exercises (truthiness, `dict.get`, `or`-coalescing, `str.strip`,
iteration, hashability, attribute errors) explicitly.  Fallible Python code
is embedded in `Except PyErr`; a raised exception is an `Except.error`.

Machine-level concerns absorbed by the model:
  * timestamps are epoch integers; `datetime.fromisoformat` is an abstract
    parameter `pts : String -> Option Int` (the claims quantify over it);
  * HTTP I/O is an oracle (`World`) giving the response each issued request
    would receive; the retry layer `http_request` is modelled separately
    over a per-attempt outcome oracle, and the pipeline oracle yields the
    post-retry result of each call (`Option Resp`), which is exactly the
    interface `http_request` presents to its callers.
-/

/-- Python str.strip(): drop leading and trailing whitespace.  Implemented
over the character list so it is kernel-computable. -/
def pyWs (c : Char) : Bool :=
  c == ' ' || c == '\t' || c == '\n' || c == '\r' || c == '\x0b' || c == '\x0c'

/-- Python `s.strip()` on a string. -/
def pyStripStr (s : String) : String :=
  ⟨((s.data.dropWhile pyWs).reverse.dropWhile pyWs).reverse⟩

/-- Python `s.lower()` (ASCII case folding). -/
def pyLowerStr (s : String) : String := ⟨s.data.map Char.toLower⟩

/-- Code-point lexicographic strict order, as Python compares strings. -/
def charListLt : List Char → List Char → Bool
  | [], [] => false
  | [], _ :: _ => true
  | _ :: _, [] => false
  | a :: as, b :: bs => if a < b then true else if b < a then false else charListLt as bs

/-- A JSON value as produced by `Response.json()`: the payload universe the
pipeline manipulates.  Numbers are modelled as integers. -/
inductive Json where
  | null
  | bool (b : Bool)
  | num (n : Int)
  | str (s : String)
  | arr (xs : List Json)
  | obj (fields : List (String × Json))

/-- Python exception classes observed by the embedded code. `recursionError`
doubles as the marker for exhausted modelling fuel of the source's unbounded
loops (Python's own stack/loop would be the diverging counterpart). -/
inductive PyErr where
  | attributeError
  | typeError
  | keyError
  | httpError
  | runtimeError
  | recursionError
deriving DecidableEq

namespace Json

/-- Python truthiness of a JSON value (`bool(x)`): None, False, 0, "", [],
and empty dicts are falsy. -/
def truthy : Json → Bool
  | .null => false
  | .bool b => b
  | .num n => n != 0
  | .str s => !s.isEmpty
  | .arr xs => !xs.isEmpty
  | .obj fs => !fs.isEmpty

/-- Python `a or b` on payload values: first truthy operand, else the last. -/
def pyOr (a b : Json) : Json := if a.truthy then a else b

/-- Lookup in a JSON object (association list), distinguishing absence. -/
def dictFind : List (String × Json) → String → Option Json
  | [], _ => none
  | (k, v) :: rest, key => if k = key then some v else dictFind rest key

/-- Python `d.get(k)` on an object: the stored value, or None when absent. -/
def dictGet (fs : List (String × Json)) (k : String) : Json :=
  (dictFind fs k).getD .null

/-- Python `x.get(k)` on an arbitrary value: AttributeError unless a dict. -/
def pyGet : Json → String → Except PyErr Json
  | .obj fs, k => .ok (dictGet fs k)
  | _, _ => .error .attributeError

/-- Python `x.get(k, default)` on an arbitrary value. -/
def pyGetD (j : Json) (k : String) (d : Json) : Except PyErr Json :=
  match j with
  | .obj fs => .ok ((dictFind fs k).getD d)
  | _ => .error .attributeError

/-- Python `x.strip()`: AttributeError unless a string. -/
def pyStrip : Json → Except PyErr String
  | .str s => .ok (pyStripStr s)
  | _ => .error .attributeError

/-- Python `x.strip().lower()`: AttributeError unless a string. -/
def pyStripLower : Json → Except PyErr String
  | .str s => .ok (pyLowerStr (pyStripStr s))
  | _ => .error .attributeError

/-- Whether a JSON value is hashable in Python (lists/dicts are not). -/
def hashable : Json → Bool
  | .arr _ => false
  | .obj _ => false
  | _ => true

/-- Python `==` between hashable JSON scalars (True == 1, False == 0).
Containers are never used as dict keys by the embedded code (they fail the
`hashable` guard first), so the container rows only need to be total. -/
def pyEq : Json → Json → Bool
  | .null, .null => true
  | .bool a, .bool b => a == b
  | .bool a, .num n => (if a then (1 : Int) else 0) == n
  | .num n, .bool a => n == (if a then (1 : Int) else 0)
  | .num a, .num b => a == b
  | .str a, .str b => a == b
  | _, _ => false

/-- Python `str(x)` / f-string interpolation of a payload value. -/
def pyStr : Json → String
  | .null => "None"
  | .bool true => "True"
  | .bool false => "False"
  | .num n => toString n
  | .str s => s
  | .arr _ => "\x7blist\x7d"
  | .obj _ => "\x7bdict\x7d"

/-- Python `for x in v`: lists yield elements, strings yield 1-character
strings, dicts yield their keys; other values raise TypeError. -/
def pyIter : Json → Except PyErr (List Json)
  | .arr xs => .ok xs
  | .str s => .ok (s.data.map fun c => .str (String.singleton c))
  | .obj fs => .ok (fs.map fun kv => .str kv.1)
  | _ => .error .typeError

/-- Update of a Python dict with JSON keys: overwrite in place or append. -/
def dictSet : List (Json × Json) → Json → Json → List (Json × Json)
  | [], k, v => [(k, v)]
  | (k0, v0) :: rest, k, v =>
    if pyEq k0 k then (k0, v) :: rest else (k0, v0) :: dictSet rest k v

/-- Lookup in a Python dict with JSON keys (`==` semantics). -/
def dictLookup : List (Json × Json) → Json → Option Json
  | [], _ => none
  | (k, v) :: rest, key => if pyEq k key then some v else dictLookup rest key

/-- Python `d.get(k)` on a dict with JSON keys: TypeError on unhashable key. -/
def pyDictGet (m : List (Json × Json)) (k : Json) : Except PyErr (Option Json) :=
  if hashable k then .ok (dictLookup m k) else .error .typeError

end Json

/-- Update of a Python dict with string keys: overwrite in place or append. -/
def strDictSet : List (String × String) → String → String → List (String × String)
  | [], k, v => [(k, v)]
  | (k0, v0) :: rest, k, v =>
    if k0 = k then (k0, v) :: rest else (k0, v0) :: strDictSet rest k v

/-- Lookup in a Python dict with string keys. -/
def strDictFind : List (String × String) → String → Option String
  | [], _ => none
  | (k, v) :: rest, key => if k = key then some v else strDictFind rest key

/-- Stable insertion for an ascending sort: `x` goes before the first
element not strictly below it, so among ties the original order is kept.
This is extensionally the stable ascending sort Python's `list.sort` and
`sorted` compute with the same strict comparison. -/
def insertLt {α : Type} (lt : α → α → Bool) (x : α) : List α → List α
  | [] => [x]
  | y :: ys => if lt y x then y :: insertLt lt x ys else x :: y :: ys

/-- Stable ascending insertion sort driven by a strict comparison. -/
def sortLt {α : Type} (lt : α → α → Bool) : List α → List α
  | [] => []
  | x :: xs => insertLt lt x (sortLt lt xs)

/-- Strict string comparison used by Python `sorted` on strings. -/
def strLt (a b : String) : Bool := charListLt a.data b.data

namespace Json

/-- Python `x is None`. -/
def isNull : Json → Bool
  | .null => true
  | _ => false

/-- Lines 181-184 of the source: the first of the given keys whose value in
the object is a string with non-empty strip, returned stripped. -/
def firstNonemptyStr (fs : List (String × Json)) : List String → Option String
  | [] => none
  | k :: ks =>
    match dictGet fs k with
    | .str s => if (pyStripStr s).isEmpty then firstNonemptyStr fs ks else some (pyStripStr s)
    | _ => firstNonemptyStr fs ks

/-- Lines 186-191: build the speaker-id -> name table.  Non-dict entries
raise AttributeError at `s.get`; an unhashable id raises TypeError at the
dict insertion (after the name, including the `Speaker <id>` fallback, has
been computed, which cannot raise). -/
def buildSpeakers (acc : List (Json × Json)) : List Json → Except PyErr (List (Json × Json))
  | [] => .ok acc
  | s :: rest =>
    match s with
    | .obj sf =>
      let sid := dictGet sf "id"
      if sid.isNull then buildSpeakers acc rest
      else if hashable sid then
        let name := pyOr (dictGet sf "name")
          (pyOr (dictGet sf "speaker") (.str ("Speaker " ++ pyStr sid)))
        buildSpeakers (dictSet acc sid name) rest
      else .error .typeError
    | _ => .error .attributeError

/-- Lines 192-200: one output line per dict-shaped turn with non-empty text;
the speaker prefix is added only when the table yields a truthy name, which
must be a string (a truthy non-string name raises TypeError at `spk + ': '`,
and a truthy non-string text field raises AttributeError at `.strip()`). -/
def turnLines (speakers : List (Json × Json)) : List Json → Except PyErr (List String)
  | [] => .ok []
  | tr :: rest =>
    match tr with
    | .obj tf => do
      let txt ← pyStrip (pyOr (dictGet tf "transcript") (pyOr (dictGet tf "text") (.str "")))
      if txt.isEmpty then turnLines speakers rest
      else do
        let spkOpt ← pyDictGet speakers (dictGet tf "speaker_id")
        let spk := pyOr (spkOpt.getD .null) (.str "")
        let line ←
          if spk.truthy then
            match spk with
            | .str s => Except.ok (s ++ ": " ++ txt)
            | _ => Except.error .typeError
          else Except.ok txt
        let restL ← turnLines speakers rest
        pure (line :: restL)
    | _ => turnLines speakers rest

/-- Lines 203-209: paragraph/segment entries; note there is no dict guard
here, so a non-dict entry raises AttributeError at `it.get`. -/
def segLines : List Json → Except PyErr (List String)
  | [] => .ok []
  | it :: rest =>
    match it with
    | .obj itf => do
      let spk ← pyStrip (pyOr (dictGet itf "speaker") (pyOr (dictGet itf "speaker_label") (.str "")))
      let txt ← pyStrip (pyOr (dictGet itf "text") (.str ""))
      let restL ← segLines rest
      if txt.isEmpty then pure restL
      else pure ((if spk.isEmpty then txt else spk ++ ": " ++ txt) :: restL)
    | _ => .error .attributeError

/-- Python `"\n".join(parts).strip()`. -/
def joinStrip (parts : List String) : String := pyStripStr (String.intercalate "\n" parts)

/-- The recursive list comprehensions of lines 213-214 and 218-219: map the
recursive call over the elements, keep the non-empty results. -/
def recParts (rec : Json → Except PyErr String) (xs : List Json) : Except PyErr (List String) := do
  let parts ← xs.mapM rec
  pure (parts.filter fun p => !p.isEmpty)

/-- Lines 212-216: if the `results` value is a list, recursively normalize
its elements and join the non-empty parts; otherwise fall through. -/
def resultsBranch (rec : Json → Except PyErr String) (v : Json) : Except PyErr String :=
  match v with
  | .arr rs => do
    let parts ← recParts rec rs
    if !parts.isEmpty then .ok (joinStrip parts) else .ok ""
  | _ => .ok ""

/-- Lines 185-216: the body of the dict branch after the flat-string keys
(line 181-184) have failed to produce text. -/
def dictTail (rec : Json → Except PyErr String) (fs : List (String × Json)) :
    Except PyErr String := do
  let lines ←
    match dictGet fs "transcript" with
    | .arr turns => do
      let sp := dictGet fs "speakers"
      let spItems ← if sp.truthy then pyIter sp else .ok []
      let speakers ← buildSpeakers [] spItems
      turnLines speakers turns
    | _ => .ok []
  if !lines.isEmpty then .ok (joinStrip lines)
  else do
    let pv := dictGet fs "paragraphs"
    let pItems ← if pv.truthy then pyIter pv else .ok []
    let linesPar ← segLines pItems
    let sv := dictGet fs "segments"
    let sItems ← if sv.truthy then pyIter sv else .ok []
    let linesSeg ← segLines sItems
    let lines2 := linesPar ++ linesSeg
    if !lines2.isEmpty then .ok (joinStrip lines2)
    else resultsBranch rec (dictGet fs "results")

/-- One unfolding of transcript_json_to_text (source lines 177-223); `rec`
stands for the recursive occurrences at lines 213 and 218.  The source's
leading `if not t: return ""` truthiness guard is distributed over the
constructors (falsy scalars and the truthy ones that match no isinstance
both end at the final `return ""`). -/
def tjttStep (rec : Json → Except PyErr String) : Json → Except PyErr String
  | .null => .ok ""
  | .bool _ => .ok ""
  | .num _ => .ok ""
  | .str s => if s.isEmpty then .ok "" else .ok (pyStripStr s)
  | .arr xs =>
    if xs.isEmpty then .ok ""
    else do
      let parts ← recParts rec xs
      .ok (joinStrip parts)
  | .obj fs =>
    if fs.isEmpty then .ok ""
    else
      match firstNonemptyStr fs ["content", "text", "transcript", "body"] with
      | some s => .ok s
      | none => dictTail rec fs

/-- The normalizer with an explicit recursion budget; this is the Python
runtime behaviour, whose stack depth is finite (`recursionError` models
RecursionError / stack exhaustion). -/
def tjttF : Nat → Json → Except PyErr String
  | 0, _ => .error .recursionError
  | fuel + 1, t => tjttStep (tjttF fuel) t

end Json

mutual
/-- Structural size of a JSON value, used as a sufficient recursion budget. -/
def jsize : Json → Nat
  | .null => 1
  | .bool _ => 1
  | .num _ => 1
  | .str _ => 1
  | .arr xs => 1 + jsizeList xs
  | .obj fs => 1 + jsizeFields fs
def jsizeList : List Json → Nat
  | [] => 0
  | x :: xs => jsize x + jsizeList xs
def jsizeFields : List (String × Json) → Nat
  | [] => 0
  | (_, v) :: fs => jsize v + jsizeFields fs
end

namespace Json

/-- transcript_json_to_text (lines 177-223).  `jsize t` always suffices as
fuel (see `tjttF_irrel`), so this is the value of the source's unbounded
structural recursion. -/
def transcript_json_to_text (t : Json) : Except PyErr String :=
  tjttF (jsize t) t

theorem jsize_pos (t : Json) : 1 ≤ jsize t := by
  cases t <;> simp [jsize]

theorem jsize_mem_list {x : Json} {xs : List Json} (h : x ∈ xs) :
    jsize x ≤ jsizeList xs := by
  induction xs with
  | nil => cases h
  | cons y ys ih =>
    rcases List.mem_cons.mp h with h1 | h1
    · subst h1; simp [jsizeList]
    · have := ih h1
      simp [jsizeList]
      omega

theorem dictFind_jsize {fs : List (String × Json)} {k : String} {v : Json}
    (h : dictFind fs k = some v) : jsize v ≤ jsizeFields fs := by
  induction fs with
  | nil => simp [dictFind] at h
  | cons kv rest ih =>
    obtain ⟨k0, v0⟩ := kv
    simp only [dictFind] at h
    by_cases hk : k0 = k
    · simp only [hk, if_pos rfl] at h
      cases h
      simp [jsizeFields]
    · simp only [hk, if_neg hk] at h
      have := ih h
      simp [jsizeFields]
      omega

theorem dictGet_arr_jsize {fs : List (String × Json)} {k : String} {rs : List Json}
    (h : dictGet fs k = .arr rs) : jsizeList rs < jsizeFields fs := by
  unfold dictGet at h
  cases hf : dictFind fs k with
  | none => rw [hf] at h; simp [Option.getD] at h
  | some v =>
    rw [hf] at h
    simp only [Option.getD] at h
    subst h
    have := dictFind_jsize hf
    simp [jsize] at this
    omega

theorem mapM_congr_mem {xs : List Json} {f g : Json → Except PyErr String}
    (h : ∀ x ∈ xs, f x = g x) : xs.mapM f = xs.mapM g := by
  induction xs with
  | nil => rfl
  | cons x rest ih =>
    simp only [List.mapM_cons]
    rw [h x (by simp), ih (fun y hy => h y (by simp [hy]))]

theorem recParts_congr {xs : List Json} {f g : Json → Except PyErr String}
    (h : ∀ x ∈ xs, f x = g x) : recParts f xs = recParts g xs := by
  unfold recParts
  rw [mapM_congr_mem h]

theorem dictGet_jsize_le (fs : List (String × Json)) (k : String) :
    jsize (dictGet fs k) ≤ jsize (Json.obj fs) := by
  unfold dictGet
  cases hf : dictFind fs k with
  | none => simp [Option.getD, jsize]
  | some v =>
    simp only [Option.getD]
    have := dictFind_jsize hf
    simp [jsize]
    omega

theorem resultsBranch_congr {v : Json} {f g : Json → Except PyErr String}
    (h : ∀ x, jsize x < jsize v → f x = g x) : resultsBranch f v = resultsBranch g v := by
  cases v with
  | arr rs =>
    have : recParts f rs = recParts g rs := by
      apply recParts_congr
      intro x hx
      apply h
      have := jsize_mem_list hx
      simp only [jsize]
      omega
    simp only [resultsBranch]
    rw [this]
  | null => rfl
  | bool b => rfl
  | num n => rfl
  | str s => rfl
  | obj gs => rfl

theorem dictTail_congr {fs : List (String × Json)} {f g : Json → Except PyErr String}
    (h : ∀ x, jsize x < jsize (Json.obj fs) → f x = g x) : dictTail f fs = dictTail g fs := by
  unfold dictTail
  have hrb : resultsBranch f (dictGet fs "results") = resultsBranch g (dictGet fs "results") := by
    apply resultsBranch_congr
    intro x hx
    apply h
    have := dictGet_jsize_le fs "results"
    omega
  rw [hrb]

theorem tjttStep_congr (f g : Json → Except PyErr String) (t : Json)
    (h : ∀ x, jsize x < jsize t → f x = g x) : tjttStep f t = tjttStep g t := by
  cases t with
  | obj fs =>
    simp only [tjttStep]
    rw [dictTail_congr h]
  | arr xs =>
    have hx : recParts f xs = recParts g xs := by
      apply recParts_congr
      intro x hx
      apply h
      have := jsize_mem_list hx
      simp only [jsize]
      omega
    simp only [tjttStep]
    rw [hx]
  | null => rfl
  | bool b => rfl
  | num n => rfl
  | str s => rfl

theorem tjttF_irrel : ∀ (t : Json) (f g : Nat), jsize t ≤ f → jsize t ≤ g →
    Json.tjttF f t = Json.tjttF g t := by
  have main : ∀ n (t : Json), jsize t ≤ n → ∀ f g, jsize t ≤ f → jsize t ≤ g →
      Json.tjttF f t = Json.tjttF g t := by
    intro n
    induction n with
    | zero => intro t ht; have := jsize_pos t; omega
    | succ n ih =>
      intro t ht f g hf hg
      have h1 := jsize_pos t
      obtain ⟨f', rfl⟩ : ∃ f', f = f' + 1 := ⟨f - 1, by omega⟩
      obtain ⟨g', rfl⟩ : ∃ g', g = g' + 1 := ⟨g - 1, by omega⟩
      show tjttStep (tjttF f') t = tjttStep (tjttF g') t
      apply tjttStep_congr
      intro x hx
      exact ih x (by omega) f' g' (by omega) (by omega)
  exact fun t f g hf hg => main (jsize t) t le_rfl f g hf hg

/-- The defining equation of the source recursion (used as a rewrite rule). -/
theorem transcript_json_to_text_eq (t : Json) :
    transcript_json_to_text t = tjttStep transcript_json_to_text t := by
  have h1 := jsize_pos t
  obtain ⟨n, hn⟩ : ∃ n, jsize t = n + 1 := ⟨jsize t - 1, by omega⟩
  unfold transcript_json_to_text
  rw [hn]
  show tjttStep (tjttF n) t = _
  apply tjttStep_congr
  intro x hx
  exact tjttF_irrel x n (jsize x) (by omega) le_rfl

end Json

/-! ## The resilient HTTP client (source lines 41-55)

`http_request` is modelled over an oracle `net : Nat -> Attempt` giving, for
each attempt index, either a raised transport exception or the response the
attempt would receive.  The returned `HttpRun` records the final result
together with the observable side effects: the list of back-off sleeps (in
time-units, as exact rationals) and the number of attempts consumed. -/

/-- An HTTP response: status code and decoded JSON body. -/
structure Resp where
  status : Nat
  body : Json

/-- Outcome of one attempt inside the retry loop: a raised transport
exception, or a received response. -/
inductive Attempt where
  | exn
  | resp (r : Resp)

/-- The retryable statuses of line 46: `(429, 500, 502, 503, 504)`. -/
def retryStatus (s : Nat) : Bool :=
  s == 429 || s == 500 || s == 502 || s == 503 || s == 504

/-- An attempt outcome that makes the loop sleep and retry: a transport
exception, or a response with a retryable status. -/
def retryTrigger : Attempt → Bool
  | .exn => true
  | .resp r => retryStatus r.status

/-- Observable outcome of one `http_request` call. -/
structure HttpRun where
  result : Option Resp
  sleeps : List ℚ
  attempts : Nat

/-- The retry loop of lines 43-54: `i` is the absolute attempt index,
`sleep` the current back-off value; each retried attempt sleeps `sleep` and
doubles it, capped at 12.0. -/
def httpGo (net : Nat → Attempt) : Nat → Nat → ℚ → HttpRun
  | 0, i, _ => ⟨none, [], i⟩
  | n + 1, i, sleep =>
    match net i with
    | .exn =>
      let rest := httpGo net n (i + 1) (min (sleep * 2) 12)
      ⟨rest.result, sleep :: rest.sleeps, rest.attempts⟩
    | .resp r =>
      if retryStatus r.status then
        let rest := httpGo net n (i + 1) (min (sleep * 2) 12)
        ⟨rest.result, sleep :: rest.sleeps, rest.attempts⟩
      else ⟨some r, [], i + 1⟩

/-- http_request (lines 41-55): `for _ in range(max(1, retries))`, starting
from `backoff_start`; falls off the loop with `None` when every attempt
retried. -/
def http_request (net : Nat → Attempt) (retries : Nat) (backoff_start : ℚ) : HttpRun :=
  httpGo net (max 1 retries) 0 backoff_start

theorem minDouble (s : ℚ) (j : Nat) :
    min (min (s * 2) 12 * 2 ^ j) 12 = min (s * 2 ^ (j + 1)) 12 := by
  have h2 : (0:ℚ) < 2 ^ j := by positivity
  have h1 : (1:ℚ) ≤ 2 ^ j := one_le_pow₀ (by norm_num)
  rcases le_total (s * 2) 12 with h | h
  · rw [min_eq_left h]
    congr 1
    ring
  · rw [min_eq_right h]
    have h12 : (12:ℚ) ≤ 12 * 2 ^ j := by nlinarith
    rw [min_eq_right h12]
    have hs : (12:ℚ) ≤ s * 2 ^ (j + 1) := by
      have := mul_le_mul_of_nonneg_right h (le_of_lt h2)
      calc (12:ℚ) ≤ 12 * 2 ^ j := h12
        _ ≤ s * 2 * 2 ^ j := this
        _ = s * 2 ^ (j + 1) := by ring
    rw [min_eq_right hs]

theorem httpGo_sleeps (net : Nat → Attempt) : ∀ n i (s : ℚ), s ≤ 12 →
    (httpGo net n i s).sleeps =
      (List.range (httpGo net n i s).sleeps.length).map (fun j => min (s * 2 ^ j) 12) := by
  intro n
  induction n with
  | zero => intro i s _; simp [httpGo]
  | succ n ih =>
    intro i s hs
    have hnext : min (s * 2) 12 ≤ 12 := min_le_right _ _
    have hmap : ∀ tl : List ℚ,
        tl = (List.range tl.length).map (fun j => min (min (s * 2) 12 * 2 ^ j) 12) →
        s :: tl = (List.range (s :: tl).length).map (fun j => min (s * 2 ^ j) 12) := by
      intro tl htl
      have h0 : min (s * 2 ^ 0) 12 = s := by
        rw [pow_zero, mul_one, min_eq_left hs]
      have hmc : (List.range tl.length).map (fun j => min (min (s * 2) 12 * 2 ^ j) 12)
          = (List.range tl.length).map ((fun j => min (s * 2 ^ j) 12) ∘ Nat.succ) := by
        apply List.map_congr_left
        intro j _
        simp only [Function.comp, Nat.succ_eq_add_one]
        rw [minDouble]
      simp only [List.length_cons, List.range_succ_eq_map, List.map_cons, List.map_map]
      rw [h0]
      exact congrArg (List.cons s) (htl.trans hmc)
    simp only [httpGo]
    cases net i with
    | exn =>
      simp only
      exact hmap _ (ih (i + 1) (min (s * 2) 12) hnext)
    | resp r =>
      by_cases hr : retryStatus r.status
      · simp only [hr, if_pos rfl, if_true]
        exact hmap _ (ih (i + 1) (min (s * 2) 12) hnext)
      · simp [hr]

theorem httpGo_sleeps_len (net : Nat → Attempt) : ∀ n i (s : ℚ),
    (httpGo net n i s).sleeps.length ≤ n := by
  intro n
  induction n with
  | zero => intro i s; simp [httpGo]
  | succ n ih =>
    intro i s
    simp only [httpGo]
    cases net i with
    | exn => simpa using ih (i + 1) (min (s * 2) 12)
    | resp r =>
      by_cases hr : retryStatus r.status
      · simp only [hr, if_true]
        simpa using ih (i + 1) (min (s * 2) 12)
      · simp [hr]

theorem httpGo_attempts (net : Nat → Attempt) : ∀ n i (s : ℚ),
    (httpGo net n i s).attempts
      = i + (httpGo net n i s).sleeps.length
        + (if (httpGo net n i s).result.isSome then 1 else 0) := by
  intro n
  induction n with
  | zero => intro i s; simp [httpGo]
  | succ n ih =>
    intro i s
    simp only [httpGo]
    cases net i with
    | exn =>
      simp only
      rw [ih (i + 1) (min (s * 2) 12)]
      simp only [List.length_cons]
      omega
    | resp r =>
      by_cases hr : retryStatus r.status
      · simp only [hr, if_true]
        rw [ih (i + 1) (min (s * 2) 12)]
        simp only [List.length_cons]
        omega
      · simp [hr]

theorem httpGo_attempts_le (net : Nat → Attempt) : ∀ n i (s : ℚ),
    (httpGo net n i s).attempts ≤ i + n := by
  intro n
  induction n with
  | zero => intro i s; simp [httpGo]
  | succ n ih =>
    intro i s
    simp only [httpGo]
    cases net i with
    | exn =>
      simp only
      have := ih (i + 1) (min (s * 2) 12)
      omega
    | resp r =>
      by_cases hr : retryStatus r.status
      · simp only [hr, if_true]
        have := ih (i + 1) (min (s * 2) 12)
        omega
      · simp [hr]

theorem httpGo_trigger (net : Nat → Attempt) : ∀ n i (s : ℚ) j,
    j < (httpGo net n i s).sleeps.length → retryTrigger (net (i + j)) = true := by
  intro n
  induction n with
  | zero => intro i s j h; simp [httpGo] at h
  | succ n ih =>
    intro i s j h
    simp only [httpGo] at h ⊢
    cases hn : net i with
    | exn =>
      rw [hn] at h
      simp only [List.length_cons] at h
      cases j with
      | zero => simp [hn, retryTrigger]
      | succ j =>
        have := ih (i + 1) (min (s * 2) 12) j (by omega)
        rw [show i + (j + 1) = i + 1 + j by omega]
        exact this
    | resp r =>
      rw [hn] at h
      by_cases hr : retryStatus r.status
      · simp only [hr, if_true, List.length_cons] at h
        cases j with
        | zero => simp [hn, retryTrigger, hr]
        | succ j =>
          have := ih (i + 1) (min (s * 2) 12) j (by omega)
          rw [show i + (j + 1) = i + 1 + j by omega]
          exact this
      · simp [hr] at h

theorem httpGo_success (net : Nat → Attempt) : ∀ n i (s : ℚ) k r, k < n →
    net (i + k) = .resp r → retryStatus r.status = false →
    (∀ j, j < k → retryTrigger (net (i + j)) = true) →
    (httpGo net n i s).result = some r ∧
    (httpGo net n i s).attempts = i + k + 1 ∧
    (httpGo net n i s).sleeps.length = k := by
  intro n
  induction n with
  | zero => intro i s k r hk; omega
  | succ n ih =>
    intro i s k r hk hnet hst htrig
    cases k with
    | zero =>
      simp only [Nat.add_zero] at hnet
      simp [httpGo, hnet, hst]
    | succ k =>
      have h0 : retryTrigger (net i) = true := by
        have := htrig 0 (by omega)
        simpa using this
      have hrec := ih (i + 1) (min (s * 2) 12) k r (by omega)
        (by rw [show i + 1 + k = i + (k + 1) by omega]; exact hnet) hst
        (by intro j hj
            rw [show i + 1 + j = i + (j + 1) by omega]
            exact htrig (j + 1) (by omega))
      simp only [httpGo]
      cases hn : net i with
      | exn =>
        simp only
        refine ⟨hrec.1, ?_, ?_⟩
        · rw [hrec.2.1]; omega
        · simp [hrec.2.2]
      | resp r0 =>
        have hr0 : retryStatus r0.status = true := by
          rw [hn] at h0
          simpa [retryTrigger] using h0
        simp only [hr0, if_true]
        refine ⟨hrec.1, ?_, ?_⟩
        · rw [hrec.2.1]; omega
        · simp [hrec.2.2]

theorem httpGo_exhaust (net : Nat → Attempt) : ∀ n i (s : ℚ),
    (∀ j, j < n → retryTrigger (net (i + j)) = true) →
    (httpGo net n i s).result = none ∧ (httpGo net n i s).sleeps.length = n := by
  intro n
  induction n with
  | zero => intro i s _; simp [httpGo]
  | succ n ih =>
    intro i s htrig
    have h0 : retryTrigger (net i) = true := by
      have := htrig 0 (by omega)
      simpa using this
    have hrec := ih (i + 1) (min (s * 2) 12)
      (by intro j hj
          rw [show i + 1 + j = i + (j + 1) by omega]
          exact htrig (j + 1) (by omega))
    simp only [httpGo]
    cases hn : net i with
    | exn => simp only; exact ⟨hrec.1, by simp [hrec.2]⟩
    | resp r0 =>
      have hr0 : retryStatus r0.status = true := by
        rw [hn] at h0
        simpa [retryTrigger] using h0
      simp only [hr0, if_true]
      exact ⟨hrec.1, by simp [hrec.2]⟩

/-- C3: http_request retries only on a raised transport exception or an HTTP
status in 429/500/502/503/504, makes at most 5 attempts at the default
setting, sleeps min(0.7 * 2^(k-1), 12) time-units before the k-th retry
(below, `sleeps` is 0-indexed, so entry j is the sleep before retry j+1),
returns any response with a status outside that set immediately as-is, and
returns null (None) rather than raising when all attempts are exhausted. -/
theorem c3_http_request_retry_policy (net : Nat → Attempt) :
    ((http_request net 5 (7/10)).sleeps =
      (List.range (http_request net 5 (7/10)).sleeps.length).map
        (fun j => min ((7/10 : ℚ) * 2 ^ j) 12))
    ∧ (http_request net 5 (7/10)).attempts ≤ 5
    ∧ (∀ j, j < (http_request net 5 (7/10)).sleeps.length →
        retryTrigger (net j) = true)
    ∧ (∀ k r, k < 5 → net k = .resp r → retryStatus r.status = false →
        (∀ j, j < k → retryTrigger (net j) = true) →
        (http_request net 5 (7/10)).result = some r ∧
        (http_request net 5 (7/10)).attempts = k + 1)
    ∧ ((∀ j, j < 5 → retryTrigger (net j) = true) →
        (http_request net 5 (7/10)).result = none) := by
  have h5 : max 1 5 = 5 := rfl
  refine ⟨?_, ?_, ?_, ?_, ?_⟩
  · have := httpGo_sleeps net 5 0 (7/10) (by norm_num)
    simpa [http_request, h5] using this
  · have h1 := httpGo_attempts_le net 5 0 (7/10)
    simpa [http_request, h5] using h1
  · intro j hj
    have := httpGo_trigger net 5 0 (7/10) j (by simpa [http_request, h5] using hj)
    simpa using this
  · intro k r hk hnet hst htrig
    have := httpGo_success net 5 0 (7/10) k r hk (by simpa using hnet) hst
      (by intro j hj; simpa using htrig j hj)
    simp only [http_request, h5]
    exact ⟨this.1, by rw [this.2.1]; omega⟩
  · intro htrig
    have := httpGo_exhaust net 5 0 (7/10)
      (by intro j hj; simpa using htrig j hj)
    simpa [http_request, h5] using this.1

/-- A network in which the first three attempts see 503 and the fourth sees
a 200 response. -/
def c3Net : Nat → Attempt :=
  fun i => if i < 3 then .resp ⟨503, .null⟩ else .resp ⟨200, .null⟩

/-- Witness for C3: on `c3Net`, http_request returns the 200 response at the
fourth attempt. -/
theorem c3_http_request_retry_policy_witness :
    (http_request c3Net 5 (7/10)).result = some ⟨200, Json.null⟩ ∧
    (http_request c3Net 5 (7/10)).attempts = 4 :=
  (c3_http_request_retry_policy c3Net).2.2.2.1 3 ⟨200, Json.null⟩ (by decide) rfl rfl
    (by decide)

/-! ## Meeting filtering and selection (source lines 225-252, 311-335) -/

namespace Json

/-- Python `s.replace("Z", "+00:00")` (line 229), over the char list. -/
def zFix (s : String) : String :=
  ⟨(s.data.map (fun c => if c == 'Z' then "+00:00".data else [c])).flatten⟩

/-- parse_iso (lines 225-235) over an abstract timestamp parser `pts`
standing for `datetime.fromisoformat` into epoch integers (time-zone
defaulting is folded into `pts`).  Falsy input returns None; a non-string
truthy input raises AttributeError at `.replace` inside the `try`, which
the source catches into None; a parse failure is `pts` returning none. -/
def parse_iso (pts : String → Option Int) (j : Json) : Option Int :=
  if !j.truthy then none
  else match j with
    | .str s => pts (zFix s)
    | _ => none

/-- The start-time synonym chain of lines 324/333/352:
`m.get("start_at") or m.get("startTime") or m.get("start_time") or m.get("start")`. -/
def startRaw (fs : List (String × Json)) : Json :=
  pyOr (dictGet fs "start_at")
    (pyOr (dictGet fs "startTime") (pyOr (dictGet fs "start_time") (dictGet fs "start")))

/-- looks_like_call (lines 237-244): at least one call-completed signal.
`or` short-circuits, so the set-membership test (which hashes the value) is
only reached when all four flags are falsy. -/
def looks_like_call (m : Json) : Except PyErr Bool :=
  match m with
  | .obj fs =>
    if (dictGet fs "transcript_ready").truthy then .ok true
    else if (dictGet fs "transcription_uuid").truthy then .ok true
    else if (dictGet fs "audio_ready").truthy then .ok true
    else if (dictGet fs "video_ready").truthy then .ok true
    else
      let ps := dictGet fs "processing_status"
      if ps.hashable then
        .ok (pyEq ps (.str "transcription_available") || pyEq ps (.str "completed"))
      else .error .typeError
  | _ => .error .attributeError

/-- The collection loop of attendees_emails (lines 248-251). -/
def attCollect : List Json → List String → Except PyErr (List String)
  | [], acc => .ok acc
  | a :: rest, acc => do
    let ej ← pyGet a "email"
    let e ← pyStripLower (pyOr ej (.str ""))
    attCollect rest (if e.isEmpty then acc else acc ++ [e])

/-- attendees_emails (lines 246-252): collected lowercased non-empty emails,
deduplicated and sorted (`sorted(set(out))`). -/
def attendees_emails (m : Json) : Except PyErr (List String) :=
  match m with
  | .obj fs => do
    let av := dictGet fs "attendees"
    let items ← if av.truthy then pyIter av else .ok []
    let out ← attCollect items []
    .ok (sortLt strLt out.dedup)
  | _ => .error .attributeError

/-- The start chain as evaluated on an arbitrary value (raises unless a
dict, like each `m.get`). -/
def startChain (m : Json) : Except PyErr Json :=
  match m with
  | .obj fs => .ok (startRaw fs)
  | _ => .error .attributeError

/-- The per-meeting body of the selection filter (lines 313-326): the four
`continue` guards in source order. -/
def meetingKept (pts : String → Option Int) (organizer_email customer_email : String)
    (cutoff : Int) (m : Json) : Except PyErr Bool := do
  let atts ← attendees_emails m
  let orgJ ← pyGet m "organizer_email"
  let org ← pyStripLower (pyOr orgJ (.str ""))
  let owner_in_attendees := atts.contains organizer_email
  if !(org == organizer_email || owner_in_attendees) then .ok false
  else if !(atts.contains customer_email) then .ok false
  else do
    let c ← looks_like_call m
    if !c then .ok false
    else do
      let sJ ← startChain m
      match parse_iso pts sJ with
      | some d => .ok (!decide (d < cutoff))
      | none => .ok true

/-- The filter loop of lines 312-328: meetings kept, in original order. -/
def filterMeetings (pts : String → Option Int) (org cust : String) (cutoff : Int) :
    List Json → Except PyErr (List Json)
  | [] => .ok []
  | m :: rest => do
    let keep ← meetingKept pts org cust cutoff m
    let restF ← filterMeetings pts org cust cutoff rest
    .ok (if keep then m :: restF else restF)

/-- The sort key of line 333: parsed start time, with unparseable/absent
start mapped to none (the source's `or datetime.max`), which `keyLt` orders
after every parsed time.  A non-dict meeting cannot occur here: everything
reaching the sort has passed `attendees_emails`, hence is a dict. -/
def sortKey (pts : String → Option Int) (m : Json) : Option Int :=
  match m with
  | .obj fs => parse_iso pts (startRaw fs)
  | _ => none

/-- Comparison of sort keys: parsed times ascending, none (= datetime.max)
after every parsed time. -/
def keyLt : Option Int → Option Int → Bool
  | some a, some b => decide (a < b)
  | some _, none => true
  | none, _ => false

/-- The `filtered.sort(key=...)` comparison of line 333. -/
def meetingLt (pts : String → Option Int) (a b : Json) : Bool :=
  keyLt (sortKey pts a) (sortKey pts b)

/-- Line 333: the stable ascending sort of the eligible meetings. -/
def sortMeetings (pts : String → Option Int) (l : List Json) : List Json :=
  sortLt (meetingLt pts) l

/-- Lines 333-334: `filtered.sort(...); m = filtered[0]`. -/
def selectBest (pts : String → Option Int) (l : List Json) : Option Json :=
  (sortMeetings pts l).head?

end Json

/-- First element attaining the strict-minimum of a list under `lt`:
extensionally the head of the stable ascending sort. -/
def stableArgmin {α : Type} (lt : α → α → Bool) : List α → Option α
  | [] => none
  | x :: xs =>
    match stableArgmin lt xs with
    | none => some x
    | some y => some (if lt y x then y else x)

theorem sortLt_nil_iff {α : Type} (lt : α → α → Bool) (l : List α) :
    sortLt lt l = [] ↔ l = [] := by
  cases l with
  | nil => simp [sortLt]
  | cons x xs =>
    simp only [sortLt]
    constructor
    · intro h
      exfalso
      cases hs : sortLt lt xs with
      | nil => rw [hs] at h; simp [insertLt] at h
      | cons y ys =>
        rw [hs] at h
        simp only [insertLt] at h
        split at h <;> simp at h
    · intro h; cases h

theorem sortLt_head {α : Type} (lt : α → α → Bool) :
    ∀ l : List α, (sortLt lt l).head? = stableArgmin lt l := by
  intro l
  induction l with
  | nil => rfl
  | cons x xs ih =>
    simp only [sortLt, stableArgmin]
    cases hs : sortLt lt xs with
    | nil =>
      have hx : xs = [] := (sortLt_nil_iff lt xs).mp hs
      rw [hx] at ih ⊢
      simp [stableArgmin, insertLt, sortLt]
    | cons y ys =>
      rw [hs] at ih
      simp only [List.head?] at ih
      rw [← ih]
      simp only [insertLt]
      split <;> simp

theorem stableArgmin_spec {α : Type} (lt : α → α → Bool)
    (hasymm : ∀ a b, lt a b = true → lt b a = false)
    (hneg : ∀ a b c, lt a b = false → lt b c = false → lt a c = false) :
    ∀ l : List α, l ≠ [] → ∃ i, ∃ h : i < l.length,
      stableArgmin lt l = some (l.get ⟨i, h⟩)
      ∧ (∀ j, ∀ hj : j < l.length, lt (l.get ⟨j, hj⟩) (l.get ⟨i, h⟩) = false)
      ∧ (∀ j, ∀ hj : j < l.length, j < i → lt (l.get ⟨i, h⟩) (l.get ⟨j, hj⟩) = true) := by
  have hirr : ∀ a, lt a a = false := by
    intro a
    cases hb : lt a a
    · rfl
    · have := hasymm a a hb
      rw [hb] at this
      exact this
  intro l
  induction l with
  | nil => intro h; exact absurd rfl h
  | cons x xs ih =>
    intro _
    by_cases hxs : xs = []
    · subst hxs
      refine ⟨0, by simp, by simp [stableArgmin], ?_, ?_⟩
      · intro j hj
        have hj0 : j = 0 := by simp at hj; omega
        subst hj0
        simpa using hirr x
      · intro j hj hji; omega
    · obtain ⟨i, h, heq, hmin, hstab⟩ := ih hxs
      simp only [stableArgmin, heq]
      by_cases hlt : lt (xs.get ⟨i, h⟩) x = true
      · refine ⟨i + 1, by simp only [List.length_cons]; omega, ?_, ?_, ?_⟩
        · rw [if_pos hlt]
          rfl
        · intro j hj
          cases j with
          | zero => simpa using hasymm _ _ hlt
          | succ j =>
            have hj' : j < xs.length := by simp only [List.length_cons] at hj; omega
            simpa using hmin j hj'
        · intro j hj hji
          cases j with
          | zero => simpa using hlt
          | succ j =>
            have hj' : j < xs.length := by simp only [List.length_cons] at hj; omega
            simpa using hstab j hj' (by omega)
      · have hlt' : lt (xs.get ⟨i, h⟩) x = false := by
          cases hb : lt (xs.get ⟨i, h⟩) x
          · rfl
          · exact absurd hb hlt
        refine ⟨0, by simp, ?_, ?_, ?_⟩
        · rw [if_neg (by simpa using hlt')]
          rfl
        · intro j hj
          cases j with
          | zero => simpa using hirr x
          | succ j =>
            have hj' : j < xs.length := by simp only [List.length_cons] at hj; omega
            have := hmin j hj'
            simpa using hneg _ _ _ this hlt'
        · intro j hj hji; omega

theorem keyLt_asymm (a b : Option Int) : Json.keyLt a b = true → Json.keyLt b a = false := by
  cases a <;> cases b <;> simp [Json.keyLt] <;> omega

theorem keyLt_negtrans (a b c : Option Int) :
    Json.keyLt a b = false → Json.keyLt b c = false → Json.keyLt a c = false := by
  cases a <;> cases b <;> cases c <;> simp [Json.keyLt] <;> omega

/-- C5: on every non-empty list of (eligible) meetings, `filtered.sort(...)`
followed by `filtered[0]` selects the first meeting, in original fetch
order, whose sort key is minimal: no meeting has a strictly smaller key
(earliest parseable start wins; an unparseable or absent start maps to
`none`, which `keyLt` places after every parsed time), and every meeting
earlier in fetch order has a strictly larger key, so ties — including the
all-unparseable case — resolve deterministically to the earliest-fetched
meeting. -/
theorem c5_selector_earliest_stable (pts : String → Option Int) (l : List Json)
    (hne : l ≠ []) :
    ∃ i, ∃ h : i < l.length,
      Json.selectBest pts l = some (l.get ⟨i, h⟩)
      ∧ (∀ j, ∀ hj : j < l.length,
          Json.keyLt (Json.sortKey pts (l.get ⟨j, hj⟩)) (Json.sortKey pts (l.get ⟨i, h⟩)) = false)
      ∧ (∀ j, ∀ hj : j < l.length, j < i →
          Json.keyLt (Json.sortKey pts (l.get ⟨i, h⟩)) (Json.sortKey pts (l.get ⟨j, hj⟩)) = true) := by
  obtain ⟨i, h, heq, hmin, hstab⟩ :=
    stableArgmin_spec (Json.meetingLt pts)
      (fun a b => keyLt_asymm (Json.sortKey pts a) (Json.sortKey pts b))
      (fun a b c => keyLt_negtrans (Json.sortKey pts a) (Json.sortKey pts b) (Json.sortKey pts c))
      l hne
  refine ⟨i, h, ?_, fun j hj => hmin j hj, fun j hj hji => hstab j hj hji⟩
  unfold Json.selectBest Json.sortMeetings
  rw [sortLt_head]
  exact heq

/-- Abstract timestamp parser for the C5 witness: day 3 parses, nothing
else does. -/
def c5pts : String → Option Int := fun s => if s = "D3" then some 3 else none

/-- A meeting with no start time. -/
def c5m1 : Json := .obj [("uuid", .str "m1")]

/-- A meeting starting at day 3. -/
def c5m2 : Json := .obj [("uuid", .str "m2"), ("start_at", .str "D3")]

/-- Witness for C5 at the spec example: one meeting with no start time and
one with a parseable start; the theorem instantiates, and selection indeed
evaluates to the day-3 meeting. -/
theorem c5_selector_earliest_stable_witness :
    (∃ i, ∃ h : i < ([c5m1, c5m2] : List Json).length,
      Json.selectBest c5pts [c5m1, c5m2] = some (([c5m1, c5m2] : List Json).get ⟨i, h⟩)
      ∧ (∀ j, ∀ hj : j < ([c5m1, c5m2] : List Json).length,
          Json.keyLt (Json.sortKey c5pts (([c5m1, c5m2] : List Json).get ⟨j, hj⟩))
            (Json.sortKey c5pts (([c5m1, c5m2] : List Json).get ⟨i, h⟩)) = false)
      ∧ (∀ j, ∀ hj : j < ([c5m1, c5m2] : List Json).length, j < i →
          Json.keyLt (Json.sortKey c5pts (([c5m1, c5m2] : List Json).get ⟨i, h⟩))
            (Json.sortKey c5pts (([c5m1, c5m2] : List Json).get ⟨j, hj⟩)) = true))
    ∧ Json.selectBest c5pts [c5m1, c5m2] = some c5m2 :=
  ⟨c5_selector_earliest_stable c5pts [c5m1, c5m2] (by simp), rfl⟩

/-! ## C4: the four-predicate characterisation of the selection filter -/

namespace Json

/-- Spec-side reading of "the meeting's attendee emails": the non-empty
lowercased stripped `email` strings of the dict-shaped entries of the
`attendees` list, in order. -/
def collectSpec : List Json → List String
  | [] => []
  | a :: rest =>
    match a with
    | .obj af =>
      match pyOr (dictGet af "email") (.str "") with
      | .str e =>
        if (pyLowerStr (pyStripStr e)).isEmpty then collectSpec rest
        else pyLowerStr (pyStripStr e) :: collectSpec rest
      | _ => collectSpec rest
    | _ => collectSpec rest

/-- Spec-side attendee email set of a meeting. -/
def specAttendeeEmails (m : Json) : List String :=
  match m with
  | .obj fs =>
    match dictGet fs "attendees" with
    | .arr as => collectSpec as
    | _ => []
  | _ => []

/-- Spec-side reading of "the meeting's organizer field" (identities are
lowercase-normalized emails, so the stored string is stripped and
lowercased; a missing or falsy field reads as the empty identity). -/
def specOrganizerField (m : Json) : String :=
  match m with
  | .obj fs =>
    match dictGet fs "organizer_email" with
    | .str s => pyLowerStr (pyStripStr s)
    | _ => ""
  | _ => ""

/-- Predicate 1 of the claim: the organizer field equals organizerEmail, or
organizerEmail is among the attendee emails. -/
def specP1 (m : Json) (o : String) : Bool :=
  specOrganizerField m == o || (specAttendeeEmails m).contains o

/-- Predicate 2 of the claim: leafEmail is among the attendee emails. -/
def specP2 (m : Json) (l : String) : Bool :=
  (specAttendeeEmails m).contains l

/-- Predicate 3 of the claim: at least one call-completed signal — a truthy
transcript_ready flag, transcription reference id, audio/video-ready flag,
or a processing status in the two-element completed set. -/
def specP3 (m : Json) : Bool :=
  match m with
  | .obj fs =>
    (dictGet fs "transcript_ready").truthy
    || (dictGet fs "transcription_uuid").truthy
    || (dictGet fs "audio_ready").truthy
    || (dictGet fs "video_ready").truthy
    || (match dictGet fs "processing_status" with
        | .str s => s == "transcription_available" || s == "completed"
        | _ => false)
  | _ => false

/-- Predicate 4 of the claim: the start time, when parseable, is not
earlier than the cutoff; an unparseable or absent start does not exclude. -/
def specP4 (pts : String → Option Int) (cutoff : Int) (m : Json) : Bool :=
  match m with
  | .obj fs => (parse_iso pts (startRaw fs)).all (fun d => decide (cutoff ≤ d))
  | _ => true

/-- Conjunction of the four predicates. -/
def specKeep (pts : String → Option Int) (o l : String) (cutoff : Int) (m : Json) : Bool :=
  specP1 m o && specP2 m l && specP3 m && specP4 pts cutoff m

/-- An attendee entry the filter can evaluate without raising: a dict whose
`email` is a string or falsy. -/
def wfAttendee : Json → Bool
  | .obj af =>
    (match dictGet af "email" with
     | .str _ => true
     | x => !x.truthy)
  | _ => false

/-- A meeting the filter can evaluate without raising: a dict whose
attendees value is a list of well-formed entries (or falsy), whose
organizer field is a string or falsy, and whose processing status is
hashable. -/
def wfMeeting (m : Json) : Bool :=
  match m with
  | .obj fs =>
    (match dictGet fs "attendees" with
     | .arr as => as.all wfAttendee
     | x => !x.truthy)
    && (match dictGet fs "organizer_email" with
        | .str _ => true
        | x => !x.truthy)
    && (dictGet fs "processing_status").hashable
  | _ => false

end Json

theorem mem_insertLt {α : Type} (lt : α → α → Bool) (a x : α) :
    ∀ l : List α, a ∈ insertLt lt x l ↔ a = x ∨ a ∈ l := by
  intro l
  induction l with
  | nil => simp [insertLt]
  | cons y ys ih =>
    simp only [insertLt]
    split
    · simp only [List.mem_cons, ih]
      tauto
    · simp only [List.mem_cons]

theorem mem_sortLt {α : Type} (lt : α → α → Bool) (a : α) :
    ∀ l : List α, a ∈ sortLt lt l ↔ a ∈ l := by
  intro l
  induction l with
  | nil => simp [sortLt]
  | cons x xs ih =>
    simp only [sortLt, mem_insertLt, ih, List.mem_cons]

namespace Json

theorem pyOr_str_dflt (s : String) : pyOr (.str s) (.str "") = .str s := by
  simp only [pyOr, truthy]
  by_cases h : s.isEmpty
  · have : s = "" := (String.isEmpty_iff s).mp h
    subst this
    simp
  · simp [h]

@[simp] theorem exc_bind_ok {α β : Type} (a : α) (f : α → Except PyErr β) :
    (Except.ok a >>= f) = f a := rfl

@[simp] theorem exc_bind_err {α β : Type} (e : PyErr) (f : α → Except PyErr β) :
    ((Except.error e : Except PyErr α) >>= f) = Except.error e := rfl

theorem pyOr_falsy {j : Json} (h : j.truthy = false) (d : Json) : pyOr j d = d := by
  simp [pyOr, h]

theorem wfAttendee_obj {af : List (String × Json)} (ha : wfAttendee (.obj af) = true) :
    (∃ s, dictGet af "email" = .str s) ∨ (dictGet af "email").truthy = false := by
  simp only [wfAttendee] at ha
  cases hem : dictGet af "email" with
  | str s => exact Or.inl ⟨s, rfl⟩
  | null => exact Or.inr rfl
  | bool b =>
    rw [hem] at ha
    right
    simpa using ha
  | num n =>
    rw [hem] at ha
    right
    simpa using ha
  | arr xs =>
    rw [hem] at ha
    right
    simpa using ha
  | obj gs =>
    rw [hem] at ha
    right
    simpa using ha

theorem attCollect_wf : ∀ (items : List Json) (acc : List String),
    (∀ a ∈ items, wfAttendee a = true) →
    attCollect items acc = .ok (acc ++ collectSpec items) := by
  intro items
  induction items with
  | nil => intro acc _; simp [attCollect, collectSpec]
  | cons a rest ih =>
    intro acc hwf
    have ha := hwf a (by simp)
    have hrest : ∀ x ∈ rest, wfAttendee x = true := fun x hx => hwf x (by simp [hx])
    cases a with
    | obj af =>
      rcases wfAttendee_obj ha with ⟨s, hem⟩ | hf
      · simp only [attCollect, collectSpec, pyGet, exc_bind_ok]
        rw [hem, pyOr_str_dflt]
        simp only [pyStripLower, exc_bind_ok]
        by_cases he : (pyLowerStr (pyStripStr s)).isEmpty
        · simp only [he, if_true]
          rw [ih acc hrest]
        · simp only [he, Bool.false_eq_true, if_false]
          rw [ih (acc ++ [pyLowerStr (pyStripStr s)]) hrest]
          simp
      · simp only [attCollect, collectSpec, pyGet, exc_bind_ok]
        rw [pyOr_falsy hf]
        simp only [pyStripLower, exc_bind_ok]
        have h0 : pyLowerStr (pyStripStr "") = "" := rfl
        rw [h0]
        have h1 : ("" : String).isEmpty = true := rfl
        simp only [h1, if_true]
        rw [ih acc hrest]
    | null => simp [wfAttendee] at ha
    | bool b => simp [wfAttendee] at ha
    | num n => simp [wfAttendee] at ha
    | str t => simp [wfAttendee] at ha
    | arr xs => simp [wfAttendee] at ha

theorem attendees_emails_wf {fs : List (String × Json)}
    (hatt : (match dictGet fs "attendees" with
             | .arr as => as.all wfAttendee
             | x => !x.truthy) = true) :
    attendees_emails (.obj fs) = .ok (sortLt strLt (specAttendeeEmails (.obj fs)).dedup) := by
  simp only [attendees_emails, specAttendeeEmails]
  cases hav : dictGet fs "attendees" with
  | arr as =>
    rw [hav] at hatt
    have hall : ∀ a ∈ as, wfAttendee a = true := by
      intro a hx
      exact List.all_eq_true.mp hatt a hx
    cases as with
    | nil => simp [truthy, attCollect, collectSpec, pyIter]
    | cons a0 rest =>
      simp only [truthy, List.isEmpty_cons, Bool.not_false, if_true, pyIter, exc_bind_ok]
      rw [attCollect_wf (a0 :: rest) [] hall]
      simp
  | null =>
    rw [hav] at hatt
    simp [truthy, attCollect, collectSpec]
  | bool b =>
    rw [hav] at hatt
    simp only [truthy, Bool.not_eq_true'] at hatt
    subst hatt
    simp [truthy, attCollect, collectSpec]
  | num n =>
    rw [hav] at hatt
    simp only [truthy, Bool.not_eq_true'] at hatt
    have hn : n = 0 := by
      by_cases h : n = 0
      · exact h
      · simp [h] at hatt
    subst hn
    simp [truthy, attCollect, collectSpec]
  | str t =>
    rw [hav] at hatt
    simp only [truthy, Bool.not_eq_true'] at hatt
    have ht : t = "" := (String.isEmpty_iff t).mp (by simpa using hatt)
    subst ht
    have he : ("" : String).isEmpty = true := rfl
    simp [truthy, he, attCollect, collectSpec]
  | obj gs =>
    rw [hav] at hatt
    simp only [truthy, Bool.not_eq_true'] at hatt
    have hg : gs = [] := by
      cases gs
      · rfl
      · simp at hatt
    subst hg
    simp [truthy, attCollect, collectSpec]

theorem contains_sort_dedup (l : List String) (a : String) :
    (sortLt strLt l.dedup).contains a = l.contains a := by
  have h1 : a ∈ sortLt strLt l.dedup ↔ a ∈ l := by
    rw [mem_sortLt, List.mem_dedup]
  simp only [List.contains, List.elem_eq_mem]
  exact decide_eq_decide.mpr h1

theorem pyEq_str (ps : Json) (c : String) :
    pyEq ps (.str c) = (match ps with | .str s => s == c | _ => false) := by
  cases ps <;> rfl

theorem looks_like_call_wf {fs : List (String × Json)}
    (hps : (dictGet fs "processing_status").hashable = true) :
    looks_like_call (.obj fs) = .ok (specP3 (.obj fs)) := by
  simp only [looks_like_call, specP3]
  by_cases h1 : (dictGet fs "transcript_ready").truthy
  · simp [h1]
  · simp only [Bool.not_eq_true] at h1
    simp only [h1, Bool.false_eq_true, if_false, Bool.false_or]
    by_cases h2 : (dictGet fs "transcription_uuid").truthy
    · simp [h2]
    · simp only [Bool.not_eq_true] at h2
      simp only [h2, Bool.false_eq_true, if_false, Bool.false_or]
      by_cases h3 : (dictGet fs "audio_ready").truthy
      · simp [h3]
      · simp only [Bool.not_eq_true] at h3
        simp only [h3, Bool.false_eq_true, if_false, Bool.false_or]
        by_cases h4 : (dictGet fs "video_ready").truthy
        · simp [h4]
        · simp only [Bool.not_eq_true] at h4
          simp only [h4, Bool.false_eq_true, if_false, Bool.false_or]
          rw [if_pos hps]
          rw [pyEq_str, pyEq_str]
          cases dictGet fs "processing_status" <;> simp

/-- The value of `(v or "").strip().lower()` for a string-or-falsy `v`. -/
def strOrEmpty : Json → String
  | .str s => pyLowerStr (pyStripStr s)
  | _ => ""

theorem wf_str_or_falsy {v : Json}
    (h : (match v with | .str _ => true | x => !x.truthy) = true) :
    pyStripLower (pyOr v (.str "")) = .ok (strOrEmpty v) := by
  cases v with
  | str s => rw [pyOr_str_dflt]; rfl
  | null => rfl
  | bool b =>
    simp only [truthy, Bool.not_eq_true'] at h
    subst h
    rfl
  | num n =>
    simp only [truthy, Bool.not_eq_true'] at h
    have hn : n = 0 := by
      by_cases hz : n = 0
      · exact hz
      · simp [hz] at h
    subst hn
    rfl
  | arr xs =>
    simp only [truthy, Bool.not_eq_true'] at h
    have hx : xs = [] := by
      cases xs
      · rfl
      · simp at h
    subst hx
    rfl
  | obj gs =>
    simp only [truthy, Bool.not_eq_true'] at h
    have hg : gs = [] := by
      cases gs
      · rfl
      · simp at h
    subst hg
    rfl

theorem specOrganizerField_eq (fs : List (String × Json)) :
    specOrganizerField (.obj fs) = strOrEmpty (dictGet fs "organizer_email") := by
  cases h : dictGet fs "organizer_email" <;> simp [specOrganizerField, strOrEmpty, h]

theorem notlt_eq_le (d cutoff : Int) : (!decide (d < cutoff)) = decide (cutoff ≤ d) := by
  by_cases hc : d < cutoff
  · have h1 : decide (d < cutoff) = true := by simpa using hc
    have h2 : decide (cutoff ≤ d) = false := by
      simp only [decide_eq_false_iff_not]
      omega
    rw [h1, h2]
    rfl
  · have h1 : decide (d < cutoff) = false := by
      simp only [decide_eq_false_iff_not]
      omega
    have h2 : decide (cutoff ≤ d) = true := by
      simp only [decide_eq_true_eq]
      omega
    rw [h1, h2]
    rfl

theorem meetingKept_wf (pts : String → Option Int) (o l : String) (cutoff : Int)
    {m : Json} (hwf : wfMeeting m = true) :
    meetingKept pts o l cutoff m = .ok (specKeep pts o l cutoff m) := by
  cases m with
  | obj fs =>
    simp only [wfMeeting, Bool.and_eq_true] at hwf
    obtain ⟨⟨hatt, horg⟩, hps⟩ := hwf
    simp only [meetingKept]
    rw [attendees_emails_wf hatt]
    simp only [pyGet, exc_bind_ok]
    rw [wf_str_or_falsy horg]
    simp only [exc_bind_ok]
    rw [contains_sort_dedup, contains_sort_dedup]
    have hfold1 : (strOrEmpty (dictGet fs "organizer_email") == o
        || (specAttendeeEmails (.obj fs)).contains o) = specP1 (.obj fs) o := by
      rw [specP1, specOrganizerField_eq]
    have hfold2 : (specAttendeeEmails (.obj fs)).contains l = specP2 (.obj fs) l := rfl
    rw [hfold1, hfold2]
    by_cases hp1 : specP1 (.obj fs) o = true
    · rw [hp1]
      simp only [Bool.not_true, Bool.false_eq_true, if_false]
      by_cases hp2 : specP2 (.obj fs) l = true
      · rw [hp2]
        simp only [Bool.not_true, Bool.false_eq_true, if_false]
        rw [looks_like_call_wf hps]
        simp only [exc_bind_ok]
        by_cases hp3 : specP3 (.obj fs) = true
        · rw [hp3]
          simp only [Bool.not_true, Bool.false_eq_true, if_false, startChain, exc_bind_ok]
          have hkeep : specKeep pts o l cutoff (.obj fs) = specP4 pts cutoff (.obj fs) := by
            simp only [specKeep, hp1, hp2, hp3, Bool.true_and]
          rw [hkeep]
          simp only [specP4]
          cases hd : parse_iso pts (startRaw fs) with
          | some d =>
            simp only [Option.all_some]
            rw [notlt_eq_le]
          | none => simp
        · rw [Bool.not_eq_true] at hp3
          rw [hp3]
          simp only [Bool.not_false, if_true]
          have hkeep : specKeep pts o l cutoff (.obj fs) = false := by
            simp only [specKeep, hp3, Bool.and_false, Bool.false_and]
          rw [hkeep]
      · rw [Bool.not_eq_true] at hp2
        rw [hp2]
        simp only [Bool.not_false, if_true]
        have hkeep : specKeep pts o l cutoff (.obj fs) = false := by
          simp only [specKeep, hp2, Bool.and_false, Bool.false_and]
        rw [hkeep]
    · rw [Bool.not_eq_true] at hp1
      rw [hp1]
      simp only [Bool.not_false, if_true]
      have hkeep : specKeep pts o l cutoff (.obj fs) = false := by
        simp only [specKeep, hp1, Bool.and_false, Bool.false_and]
      rw [hkeep]
  | null => simp [wfMeeting] at hwf
  | bool b => simp [wfMeeting] at hwf
  | num n => simp [wfMeeting] at hwf
  | str s => simp [wfMeeting] at hwf
  | arr xs => simp [wfMeeting] at hwf

theorem filterMeetings_wf (pts : String → Option Int) (o l : String) (cutoff : Int) :
    ∀ items : List Json, (∀ m ∈ items, wfMeeting m = true) →
    filterMeetings pts o l cutoff items = .ok (items.filter (specKeep pts o l cutoff)) := by
  intro items
  induction items with
  | nil => intro _; simp [filterMeetings]
  | cons m rest ih =>
    intro hwf
    have hm := hwf m (by simp)
    have hrest : ∀ x ∈ rest, wfMeeting x = true := fun x hx => hwf x (by simp [hx])
    simp only [filterMeetings]
    rw [meetingKept_wf pts o l cutoff hm]
    simp only [exc_bind_ok]
    rw [ih hrest]
    simp only [exc_bind_ok, List.filter_cons]

end Json

/-- Timestamp parser for the C4 instances: nothing parses. -/
def c4pts : String → Option Int := fun _ => none

/-- A meeting satisfying all four spec predicates whose second attendee
entry is a bare number: `attendees_emails` raises AttributeError on it. -/
def c4Bad : Json := .obj [("organizer_email", .str "own@x"),
  ("attendees", .arr [.obj [("email", .str "lead@x")], .num 5]),
  ("transcript_ready", .bool true)]

/-- C4 counterexample: the claim "a meeting is kept by the selection filter
iff all four predicates hold" fails as stated over every meeting list: on
this list the single meeting satisfies all four predicates, yet the filter
does not keep it — it raises AttributeError at the malformed attendee
entry, so no kept-list is produced at all. -/
theorem c4_filter_raises_on_malformed_attendee :
    Json.filterMeetings c4pts "own@x" "lead@x" 0 [c4Bad] = .error .attributeError
    ∧ Json.specP1 c4Bad "own@x" = true
    ∧ Json.specP2 c4Bad "lead@x" = true
    ∧ Json.specP3 c4Bad = true
    ∧ Json.specP4 c4pts 0 c4Bad = true :=
  ⟨rfl, rfl, rfl, rfl, rfl⟩

/-- C4 (amended): for every meeting list whose entries the filter can
evaluate without raising (dict meetings, attendee entries dicts with
string-or-absent emails, string-or-absent organizer field, hashable
processing status), the filter returns a kept-list, and a meeting is kept
iff all four predicates hold: (1) organizer field equals organizerEmail or
organizerEmail is among the attendee emails; (2) leafEmail is among the
attendee emails; (3) at least one call-completed signal; (4) the start
time, when parseable, is not earlier than the cutoff, and an unparseable
or absent start does not exclude. -/
theorem c4_filter_iff_wellformed (pts : String → Option Int) (o l : String)
    (cutoff : Int) (items : List Json)
    (hwf : ∀ m ∈ items, Json.wfMeeting m = true) :
    ∃ kept, Json.filterMeetings pts o l cutoff items = .ok kept ∧
      ∀ m ∈ items, (m ∈ kept ↔
        Json.specP1 m o = true ∧ Json.specP2 m l = true ∧
        Json.specP3 m = true ∧ Json.specP4 pts cutoff m = true) := by
  refine ⟨items.filter (Json.specKeep pts o l cutoff),
    Json.filterMeetings_wf pts o l cutoff items hwf, ?_⟩
  intro m hm
  rw [List.mem_filter]
  constructor
  · rintro ⟨_, hk⟩
    simp only [Json.specKeep, Bool.and_eq_true] at hk
    exact ⟨hk.1.1.1, hk.1.1.2, hk.1.2, hk.2⟩
  · rintro ⟨h1, h2, h3, h4⟩
    exact ⟨hm, by simp only [Json.specKeep, h1, h2, h3, h4, Bool.and_self]⟩

/-- A well-formed eligible meeting for the C4 witness. -/
def c4w : Json := .obj [("organizer_email", .str "own@x"),
  ("attendees", .arr [.obj [("email", .str "lead@x")]]),
  ("transcript_ready", .bool true)]

/-- Witness for the amended C4 on a concrete well-formed list. -/
theorem c4_filter_iff_wellformed_witness :
    ∃ kept, Json.filterMeetings c4pts "own@x" "lead@x" 0 [c4w] = .ok kept ∧
      ∀ m ∈ [c4w], (m ∈ kept ↔
        Json.specP1 m "own@x" = true ∧ Json.specP2 m "lead@x" = true ∧
        Json.specP3 m = true ∧ Json.specP4 c4pts 0 m = true) :=
  c4_filter_iff_wellformed c4pts "own@x" "lead@x" 0 [c4w] (by decide)

/-! ## C8: speaker attribution in the turn-list branch -/

namespace Json

/-- A value that is a string or falsy (so `(v or dflt)` cannot produce a
truthy non-string). -/
def strOrFalsy : Json → Bool
  | .str _ => true
  | x => !x.truthy

theorem strOrFalsy_cases {v : Json} (h : strOrFalsy v = true) :
    (∃ s, v = .str s) ∨ v.truthy = false := by
  cases v with
  | str s => exact Or.inl ⟨s, rfl⟩
  | null => exact Or.inr rfl
  | bool b => right; simpa [strOrFalsy] using h
  | num n => right; simpa [strOrFalsy] using h
  | arr xs => right; simpa [strOrFalsy] using h
  | obj gs => right; simpa [strOrFalsy] using h

theorem chain_str {a b : Json} (c : String) (ha : strOrFalsy a = true)
    (hb : strOrFalsy b = true) : ∃ s, pyOr a (pyOr b (.str c)) = .str s := by
  by_cases hta : a.truthy = true
  · rcases strOrFalsy_cases ha with ⟨s, rfl⟩ | hfa
    · exact ⟨s, by simp [pyOr, hta]⟩
    · rw [hfa] at hta; cases hta
  · have hfa : a.truthy = false := by simpa using hta
    rw [pyOr_falsy hfa]
    by_cases htb : b.truthy = true
    · rcases strOrFalsy_cases hb with ⟨s, rfl⟩ | hfb
      · exact ⟨s, by simp [pyOr, htb]⟩
      · rw [hfb] at htb; cases htb
    · have hfb : b.truthy = false := by simpa using htb
      exact ⟨c, pyOr_falsy hfb _⟩

/-- A speaker-table entry the builder can process: a dict whose id is null
(skipped) or hashable with string-or-falsy name/speaker fields. -/
def wfSpeakerEntry : Json → Bool
  | .obj sf =>
    (dictGet sf "id").isNull
    || ((dictGet sf "id").hashable && strOrFalsy (dictGet sf "name")
        && strOrFalsy (dictGet sf "speaker"))
  | _ => false

/-- A turn entry the turn loop can process: non-dicts are skipped by the
source's isinstance guard; dict turns need string-or-falsy text fields and
a hashable speaker id. -/
def wfTurn : Json → Bool
  | .obj tf =>
    strOrFalsy (dictGet tf "transcript") && strOrFalsy (dictGet tf "text")
    && (dictGet tf "speaker_id").hashable
  | _ => true

theorem dictSet_vals {m : List (Json × Json)} {k v : Json}
    (hm : ∀ kv ∈ m, ∃ s, kv.2 = .str s) (hv : ∃ s, v = .str s) :
    ∀ kv ∈ dictSet m k v, ∃ s, kv.2 = .str s := by
  induction m with
  | nil =>
    intro kv hkv
    simp [dictSet] at hkv
    subst hkv
    exact hv
  | cons kv0 rest ih =>
    obtain ⟨k0, v0⟩ := kv0
    intro kv hkv
    simp only [dictSet] at hkv
    split at hkv
    · rcases List.mem_cons.mp hkv with h | h
      · subst h; exact hv
      · exact hm kv (by simp [h])
    · rcases List.mem_cons.mp hkv with h | h
      · subst h; exact hm (k0, v0) (by simp)
      · exact ih (fun x hx => hm x (by simp [hx])) kv h

theorem buildSpeakers_wf : ∀ (entries : List Json) (acc : List (Json × Json)),
    (∀ e ∈ entries, wfSpeakerEntry e = true) →
    (∀ kv ∈ acc, ∃ s, kv.2 = .str s) →
    ∃ sp, buildSpeakers acc entries = .ok sp ∧ ∀ kv ∈ sp, ∃ s, kv.2 = .str s := by
  intro entries
  induction entries with
  | nil => intro acc _ hacc; exact ⟨acc, rfl, hacc⟩
  | cons e rest ih =>
    intro acc hwf hacc
    have he := hwf e (by simp)
    have hrest : ∀ x ∈ rest, wfSpeakerEntry x = true := fun x hx => hwf x (by simp [hx])
    cases e with
    | obj sf =>
      simp only [wfSpeakerEntry] at he
      simp only [buildSpeakers]
      by_cases hid : (dictGet sf "id").isNull = true
      · rw [if_pos hid]
        exact ih acc hrest hacc
      · rw [Bool.not_eq_true] at hid
        rw [hid] at he
        simp only [Bool.false_or, Bool.and_eq_true] at he
        obtain ⟨⟨hh, hn⟩, hs⟩ := he
        rw [hid]
        simp only [Bool.false_eq_true, if_false, hh, if_true]
        obtain ⟨nm, hnm⟩ := chain_str ("Speaker " ++ pyStr (dictGet sf "id")) hn hs
        rw [hnm]
        exact ih (dictSet acc (dictGet sf "id") (.str nm)) hrest
          (dictSet_vals hacc ⟨nm, rfl⟩)
    | null => simp [wfSpeakerEntry] at he
    | bool b => simp [wfSpeakerEntry] at he
    | num n => simp [wfSpeakerEntry] at he
    | str t => simp [wfSpeakerEntry] at he
    | arr xs => simp [wfSpeakerEntry] at he

theorem dictLookup_mem : ∀ {m : List (Json × Json)} {k v : Json},
    dictLookup m k = some v → ∃ kv ∈ m, kv.2 = v := by
  intro m
  induction m with
  | nil => intro k v h; simp [dictLookup] at h
  | cons kv0 rest ih =>
    intro k v h
    obtain ⟨k0, v0⟩ := kv0
    simp only [dictLookup] at h
    split at h
    · have hv : v0 = v := by injection h
      subst hv
      exact ⟨(k0, v0), by simp, rfl⟩
    · obtain ⟨kv, hkv, hv⟩ := ih h
      exact ⟨kv, by simp [hkv], hv⟩

end Json

namespace Json

/-- The claim's dichotomy for one emitted line of the turn-list branch:
the line comes from some dict-shaped turn with non-empty stripped text,
and either a non-empty name resolves in the speaker table for that turn's
speaker id and the line is that name, a `": "` separator, then the text —
or no name resolves (no table entry, or an empty name) and the line is the
bare text with no prefix and no separator added. -/
def lineOk (speakers : List (Json × Json)) (turns : List Json) (line : String) : Prop :=
  ∃ tf, Json.obj tf ∈ turns ∧ ∃ txt : String,
    pyStrip (pyOr (dictGet tf "transcript") (pyOr (dictGet tf "text") (.str ""))) = .ok txt ∧
    txt ≠ "" ∧
    ((∃ nm, nm ≠ "" ∧ dictLookup speakers (dictGet tf "speaker_id") = some (.str nm) ∧
        line = nm ++ ": " ++ txt)
     ∨ (line = txt ∧ (dictLookup speakers (dictGet tf "speaker_id") = none
          ∨ dictLookup speakers (dictGet tf "speaker_id") = some (.str ""))))

theorem lineOk_weaken {speakers : List (Json × Json)} {turns : List Json}
    {tr : Json} {line : String} (h : lineOk speakers turns line) :
    lineOk speakers (tr :: turns) line := by
  obtain ⟨tf, htf, rest⟩ := h
  exact ⟨tf, by simp [htf], rest⟩

theorem turnLines_wf : ∀ (turns : List Json) (speakers : List (Json × Json)),
    (∀ kv ∈ speakers, ∃ s, kv.2 = .str s) →
    (∀ tr ∈ turns, wfTurn tr = true) →
    ∃ lines, turnLines speakers turns = .ok lines ∧
      ∀ line ∈ lines, lineOk speakers turns line := by
  intro turns
  induction turns with
  | nil => intro speakers _ _; exact ⟨[], rfl, by simp⟩
  | cons tr rest ih =>
    intro speakers hsp hwf
    have htr := hwf tr (by simp)
    have hrest : ∀ x ∈ rest, wfTurn x = true := fun x hx => hwf x (by simp [hx])
    obtain ⟨restL, hrestL, hrestOk⟩ := ih speakers hsp hrest
    cases tr with
    | obj tf =>
      simp only [wfTurn, Bool.and_eq_true] at htr
      obtain ⟨⟨ht1, ht2⟩, hsid⟩ := htr
      obtain ⟨s, hchain⟩ := chain_str "" ht1 ht2
      simp only [turnLines, hchain, pyStrip, exc_bind_ok]
      by_cases he : (pyStripStr s).isEmpty = true
      · rw [if_pos he]
        rw [hrestL]
        exact ⟨restL, rfl, fun line hl => lineOk_weaken (hrestOk line hl)⟩
      · rw [if_neg (by simp [he])]
        simp only [pyDictGet, hsid, if_true, exc_bind_ok]
        have htxt : pyStripStr s ≠ "" := by
          intro hc
          rw [hc] at he
          exact he rfl
        cases hlk : dictLookup speakers (dictGet tf "speaker_id") with
        | none =>
          have hval : pyOr ((none : Option Json).getD Json.null) (.str "") = .str "" := rfl
          rw [hval]
          have hff : (Json.str "").truthy = false := rfl
          rw [hff]
          simp only [Bool.false_eq_true, if_false]
          rw [hrestL]
          refine ⟨pyStripStr s :: restL, rfl, ?_⟩
          intro line hl
          rcases List.mem_cons.mp hl with h | h
          · subst h
            refine ⟨tf, by simp, pyStripStr s, by rw [hchain]; rfl, htxt, ?_⟩
            exact Or.inr ⟨rfl, Or.inl hlk⟩
          · exact lineOk_weaken (hrestOk line h)
        | some v =>
          obtain ⟨kv, hkv, hveq⟩ := dictLookup_mem hlk
          obtain ⟨nm, hnm⟩ := hsp kv hkv
          rw [hveq] at hnm
          subst hnm
          have hval : (some (Json.str nm)).getD Json.null = Json.str nm := rfl
          rw [hval, pyOr_str_dflt]
          by_cases hnme : nm = ""
          · subst hnme
            have hff : (Json.str "").truthy = false := rfl
            rw [hff]
            simp only [Bool.false_eq_true, if_false]
            rw [hrestL]
            refine ⟨pyStripStr s :: restL, rfl, ?_⟩
            intro line hl
            rcases List.mem_cons.mp hl with h | h
            · subst h
              refine ⟨tf, by simp, pyStripStr s, by rw [hchain]; rfl, htxt, ?_⟩
              exact Or.inr ⟨rfl, Or.inr hlk⟩
            · exact lineOk_weaken (hrestOk line h)
          · have htt : (Json.str nm).truthy = true := by
              simp only [truthy]
              cases hni : nm.isEmpty
              · rfl
              · exact absurd ((String.isEmpty_iff nm).mp hni) hnme
            rw [htt]
            simp only [if_true]
            rw [hrestL]
            refine ⟨(nm ++ ": " ++ pyStripStr s) :: restL, rfl, ?_⟩
            intro line hl
            rcases List.mem_cons.mp hl with h | h
            · subst h
              refine ⟨tf, by simp, pyStripStr s, by rw [hchain]; rfl, htxt, ?_⟩
              exact Or.inl ⟨nm, hnme, hlk, rfl⟩
            · exact lineOk_weaken (hrestOk line h)
    | null =>
      simp only [turnLines]
      rw [hrestL]
      exact ⟨restL, rfl, fun line hl => lineOk_weaken (hrestOk line hl)⟩
    | bool b =>
      simp only [turnLines]
      rw [hrestL]
      exact ⟨restL, rfl, fun line hl => lineOk_weaken (hrestOk line hl)⟩
    | num n =>
      simp only [turnLines]
      rw [hrestL]
      exact ⟨restL, rfl, fun line hl => lineOk_weaken (hrestOk line hl)⟩
    | str t =>
      simp only [turnLines]
      rw [hrestL]
      exact ⟨restL, rfl, fun line hl => lineOk_weaken (hrestOk line hl)⟩
    | arr xs =>
      simp only [turnLines]
      rw [hrestL]
      exact ⟨restL, rfl, fun line hl => lineOk_weaken (hrestOk line hl)⟩

end Json

theorem iterOrEmpty (xs : List Json) :
    (if (Json.arr xs).truthy = true then Json.pyIter (Json.arr xs) else .ok []) = .ok xs := by
  cases xs <;> simp [Json.truthy, Json.pyIter]

/-- C8: for every payload of the turn-list-plus-speaker-table shape (an
object whose `transcript` key holds a list of turns, whose `speakers` key
holds a list of well-formed id/name entries, and whose flat-string keys do
not preempt the branch), the speaker table builds, the turn loop emits a
line list, every emitted line satisfies the dichotomy of `lineOk` (a
resolved non-empty speaker name followed by `": "` and the text, or the
bare text with no separator when no name resolves), and when any line is
emitted the normalizer's result is exactly their newline join. -/
theorem c8_speaker_line_dichotomy (fs : List (String × Json))
    (turns spEntries : List Json)
    (h1 : Json.dictGet fs "transcript" = .arr turns)
    (h2 : Json.dictGet fs "speakers" = .arr spEntries)
    (h3 : Json.firstNonemptyStr fs ["content", "text", "transcript", "body"] = none)
    (h4 : ∀ e ∈ spEntries, Json.wfSpeakerEntry e = true)
    (h5 : ∀ tr ∈ turns, Json.wfTurn tr = true) :
    ∃ speakers lines,
      Json.buildSpeakers [] spEntries = .ok speakers ∧
      Json.turnLines speakers turns = .ok lines ∧
      (∀ line ∈ lines, Json.lineOk speakers turns line) ∧
      (lines ≠ [] →
        Json.transcript_json_to_text (.obj fs) = .ok (Json.joinStrip lines)) := by
  obtain ⟨speakers, hbs, hvals⟩ := Json.buildSpeakers_wf spEntries [] h4 (by simp)
  obtain ⟨lines, htl, hok⟩ := Json.turnLines_wf turns speakers hvals h5
  refine ⟨speakers, lines, hbs, htl, hok, ?_⟩
  intro hne
  rw [Json.transcript_json_to_text_eq]
  have hfs : fs ≠ [] := by
    intro hc
    subst hc
    simp [Json.dictGet, Json.dictFind] at h1
  have hfse : fs.isEmpty = false := by
    cases fs
    · exact absurd rfl hfs
    · rfl
  simp only [Json.tjttStep, hfse, Bool.false_eq_true, if_false, h3, Json.dictTail, h1, h2]
  cases spEntries with
  | nil =>
    have ht : (Json.arr ([] : List Json)).truthy = false := rfl
    rw [ht]
    simp only [Bool.false_eq_true, if_false, Json.exc_bind_ok, hbs, htl]
    simp [hne]
  | cons e es =>
    have ht : (Json.arr (e :: es)).truthy = true := rfl
    rw [ht]
    simp only [if_true, Json.pyIter, Json.exc_bind_ok, hbs, htl]
    simp [hne]

/-- Concrete turn-list payload for the C8 witness. -/
def c8fs : List (String × Json) :=
  [("transcript", .arr [.obj [("text", .str "hello"), ("speaker_id", .num 1)],
                        .obj [("text", .str "aside"), ("speaker_id", .num 9)]]),
   ("speakers", .arr [.obj [("id", .num 1), ("name", .str "Al")]])]

/-- Witness for C8: the two-turn payload with one resolvable speaker. -/
theorem c8_speaker_line_dichotomy_witness :
    (∃ speakers lines,
      Json.buildSpeakers []
          [Json.obj [("id", .num 1), ("name", .str "Al")]] = .ok speakers ∧
      Json.turnLines speakers
          [Json.obj [("text", .str "hello"), ("speaker_id", .num 1)],
           Json.obj [("text", .str "aside"), ("speaker_id", .num 9)]] = .ok lines ∧
      (∀ line ∈ lines, Json.lineOk speakers
          [Json.obj [("text", .str "hello"), ("speaker_id", .num 1)],
           Json.obj [("text", .str "aside"), ("speaker_id", .num 9)]] line) ∧
      (lines ≠ [] →
        Json.transcript_json_to_text (.obj c8fs) = .ok (Json.joinStrip lines)))
    ∧ Json.transcript_json_to_text (.obj c8fs) = .ok "Al: hello\naside" :=
  ⟨c8_speaker_line_dichotomy c8fs
      [Json.obj [("text", .str "hello"), ("speaker_id", .num 1)],
       Json.obj [("text", .str "aside"), ("speaker_id", .num 9)]]
      [Json.obj [("id", .num 1), ("name", .str "Al")]]
      rfl rfl rfl (by decide) (by decide),
   rfl⟩

/-! ## C2: the normalizer is not total on unrecognized shapes -/

/-- C2 (code bug): the spec demands the normalizer never raise on any
payload shape, and indeed empty and unrecognized shapes normalize to the
empty string — but a payload whose `transcript` key holds a list while its
`speakers` key holds a list with a non-dict entry raises AttributeError at
`s.get("id")`, so the function is not total as specified. -/
theorem c2_normalizer_raises_on_malformed_speakers :
    Json.transcript_json_to_text
        (.obj [("transcript", .arr []), ("speakers", .arr [.num 1])])
      = .error .attributeError
    ∧ Json.transcript_json_to_text .null = .ok ""
    ∧ Json.transcript_json_to_text (.str "") = .ok ""
    ∧ Json.transcript_json_to_text (.arr []) = .ok ""
    ∧ Json.transcript_json_to_text (.obj []) = .ok ""
    ∧ Json.transcript_json_to_text (.num 7) = .ok ""
    ∧ Json.transcript_json_to_text (.bool true) = .ok "" :=
  ⟨rfl, rfl, rfl, rfl, rfl, rfl, rfl⟩

/-! ## C9: recursion depth of the normalizer -/

mutual
/-- Nesting depth of a payload (containers add one level). -/
def jdepth : Json → Nat
  | .null => 0
  | .bool _ => 0
  | .num _ => 0
  | .str _ => 0
  | .arr xs => 1 + jdepthList xs
  | .obj fs => 1 + jdepthFields fs
def jdepthList : List Json → Nat
  | [] => 0
  | x :: xs => max (jdepth x) (jdepthList xs)
def jdepthFields : List (String × Json) → Nat
  | [] => 0
  | (_, v) :: fs => max (jdepth v) (jdepthFields fs)
end

/-- The results-wrapper tower: n+1 nested objects around a flat text. -/
def nestResults : Nat → Json
  | 0 => .obj [("text", .str "hi")]
  | n + 1 => .obj [("results", .arr [nestResults n])]

theorem jdepth_nest : ∀ n, jdepth (nestResults n) = 2 * n + 1 := by
  intro n
  induction n with
  | zero => rfl
  | succ n ih =>
    simp only [nestResults, jdepth, jdepthFields, jdepthList]
    rw [ih]
    simp only [Nat.max_zero]
    omega

theorem tjttStepResultsOk {rec : Json → Except PyErr String} {t : Json}
    (h : rec t = .ok "hi") :
    Json.tjttStep rec (.obj [("results", .arr [t])]) = .ok "hi" := by
  have h1 : Json.firstNonemptyStr [("results", Json.arr [t])]
      ["content", "text", "transcript", "body"] = none := rfl
  have h2 : Json.dictGet [("results", Json.arr [t])] "transcript" = Json.null := rfl
  have h3 : Json.dictGet [("results", Json.arr [t])] "paragraphs" = Json.null := rfl
  have h4 : Json.dictGet [("results", Json.arr [t])] "segments" = Json.null := rfl
  have h5 : Json.dictGet [("results", Json.arr [t])] "results" = Json.arr [t] := rfl
  simp only [Json.tjttStep, List.isEmpty_cons, Bool.false_eq_true, if_false, h1,
    Json.dictTail, h2, h3, h4, h5]
  simp only [Json.truthy, Bool.false_eq_true, if_false, Json.exc_bind_ok, Json.segLines,
    Json.resultsBranch, Json.recParts, List.mapM_cons, List.mapM_nil, h]
  rfl

theorem tjttStepResultsErr {rec : Json → Except PyErr String} {t : Json} {e : PyErr}
    (h : rec t = .error e) :
    Json.tjttStep rec (.obj [("results", .arr [t])]) = .error e := by
  have h1 : Json.firstNonemptyStr [("results", Json.arr [t])]
      ["content", "text", "transcript", "body"] = none := rfl
  have h2 : Json.dictGet [("results", Json.arr [t])] "transcript" = Json.null := rfl
  have h3 : Json.dictGet [("results", Json.arr [t])] "paragraphs" = Json.null := rfl
  have h4 : Json.dictGet [("results", Json.arr [t])] "segments" = Json.null := rfl
  have h5 : Json.dictGet [("results", Json.arr [t])] "results" = Json.arr [t] := rfl
  simp only [Json.tjttStep, List.isEmpty_cons, Bool.false_eq_true, if_false, h1,
    Json.dictTail, h2, h3, h4, h5]
  simp only [Json.truthy, Bool.false_eq_true, if_false, Json.exc_bind_ok, Json.segLines,
    Json.resultsBranch, Json.recParts, List.mapM_cons, List.mapM_nil, h]
  rfl

theorem tjtt_nest : ∀ n, Json.transcript_json_to_text (nestResults n) = .ok "hi" := by
  intro n
  induction n with
  | zero => rfl
  | succ n ih =>
    rw [Json.transcript_json_to_text_eq]
    exact tjttStepResultsOk ih

theorem tjttF_nest_exhaust : ∀ (fuel n : Nat), fuel ≤ n →
    Json.tjttF fuel (nestResults n) = .error .recursionError := by
  intro fuel
  induction fuel with
  | zero => intro n _; rfl
  | succ fuel ih =>
    intro n hle
    obtain ⟨m, rfl⟩ : ∃ m, n = m + 1 := ⟨n - 1, by omega⟩
    show Json.tjttStep (Json.tjttF fuel) (nestResults (m + 1)) = .error .recursionError
    exact tjttStepResultsErr (ih m (by omega))

/-- C9 counterexample: the claim that a defensive depth bound exists — some
depth D past which every input normalizes to the empty result — is false:
for every candidate bound, the deeper results-tower still normalizes to
non-empty text. -/
theorem c9_no_depth_bound_counterexample :
    ¬ ∃ D : Nat, ∀ t : Json, D < jdepth t →
        Json.transcript_json_to_text t = .ok "" := by
  rintro ⟨D, hD⟩
  have h1 := tjtt_nest (D + 1)
  have h2 := hD (nestResults (D + 1)) (by rw [jdepth_nest]; omega)
  rw [h1] at h2
  exact absurd (Except.ok.inj h2) (by decide)

/-- C9 (amended): the normalizer terminates on every input — any recursion
budget of at least `jsize t` computes the same final value — but there is
no defensive depth bound in the code: the (2n+1)-deep results-tower
normalizes to non-empty text for every n, and a runtime whose remaining
recursion budget is below the tower height (Python's finite recursion
limit) raises RecursionError, i.e. stack exhaustion, instead of returning
an empty result. -/
theorem c9_normalizer_terminates_no_bound :
    (∀ (t : Json) (fuel : Nat), jsize t ≤ fuel →
        Json.tjttF fuel t = Json.transcript_json_to_text t)
    ∧ (∀ n, jdepth (nestResults n) = 2 * n + 1
        ∧ Json.transcript_json_to_text (nestResults n) = .ok "hi")
    ∧ (∀ fuel n, fuel ≤ n →
        Json.tjttF fuel (nestResults n) = .error .recursionError) := by
  refine ⟨?_, ?_, tjttF_nest_exhaust⟩
  · intro t fuel hf
    exact Json.tjttF_irrel t fuel (jsize t) hf le_rfl
  · intro n
    exact ⟨jdepth_nest n, tjtt_nest n⟩

/-- Witness for C9: the budget-irrelevance part at a concrete payload and
budget, and the fuel-exhaustion part at a concrete tower. -/
theorem c9_normalizer_terminates_no_bound_witness :
    Json.tjttF 50 (nestResults 3) = Json.transcript_json_to_text (nestResults 3)
    ∧ Json.tjttF 3 (nestResults 3) = .error .recursionError :=
  ⟨c9_normalizer_terminates_no_bound.1 (nestResults 3) 50 (by decide),
   c9_normalizer_terminates_no_bound.2.2 3 3 (by decide)⟩

/-! ## The pipeline over an HTTP oracle (source lines 57-369)

Each field of `World` gives the post-retry result (`Option Resp`, exactly
the interface `http_request` presents) of the corresponding request the
pipeline would issue, keyed by its position in the call sequence (page or
chunk index, owner id, organizer/parameter-style/page, meeting id, webhook
attempt count).  Credentials, URLs and request parameters are absorbed by
the oracle.  `requests.Response` truthiness is `status < 400` (its
`__bool__` is `ok`), which the source relies on in every `if not r` guard. -/
structure World where
  listMeta : Option Resp
  memberships : Nat → Option Resp
  batchRead : Nat → Option Resp
  ownerLookup : String → Option Resp
  avPage : String → Nat → Nat → Option Resp
  trMeeting : String → Option Resp
  trTranscription : String → Option Resp
  trMeetingList : String → Option Resp
  webhook : Nat → Option Resp

/-- `Response.raise_for_status()`: HTTPError on a 4xx/5xx status. -/
def raise_for_status (r : Resp) : Except PyErr Unit :=
  if 400 ≤ r.status then .error .httpError else .ok ()

/-- The id-collection loop of lines 78-81. -/
def collectIds : List Json → List String → Except PyErr (List String)
  | [], acc => .ok acc
  | it :: rest, acc => do
    let rid ← Json.pyGet it "recordId"
    collectIds rest (if rid.truthy then acc ++ [Json.pyStr rid] else acc)

/-- The membership pagination loop of lines 70-85.  The source's
`while True` is modelled with fuel; exhaustion (`recursionError`) stands
for the loop still running.  Page `i` of the oracle is the i-th membership
request; `if not rr or rr.status_code == 404: break` is status >= 400 or
404 or no response; the following `raise_for_status` can then never fire. -/
def memGo (w : World) : Nat → Nat → List String → Except PyErr (List String)
  | 0, _, _ => .error .recursionError
  | fuel + 1, i, acc =>
    match w.memberships i with
    | none => .ok acc
    | some rr =>
      if 400 ≤ rr.status ∨ rr.status = 404 then .ok acc
      else do
        let _ ← raise_for_status rr
        let data := Json.pyOr rr.body (.obj [])
        let resultsV ← Json.pyGetD data "results" (.arr [])
        let items ← Json.pyIter resultsV
        let acc2 ← collectIds items acc
        let paging ← Json.pyGetD data "paging" (.obj [])
        let nxt ← Json.pyGetD paging "next" (.obj [])
        let after ← Json.pyGet nxt "after"
        if after.truthy then memGo w fuel (i + 1) acc2 else .ok acc2

/-- hs_get_list_member_ids (lines 61-87): a missing, erroring (>= 400, by
Response truthiness) or 404 list-metadata response raises
`RuntimeError("HubSpot list not found")`. -/
def hs_get_list_member_ids (w : World) (fuel : Nat) : Except PyErr (List String) :=
  match w.listMeta with
  | none => .error .runtimeError
  | some r =>
    if 400 ≤ r.status ∨ r.status = 404 then .error .runtimeError
    else do
      let _ ← raise_for_status r
      memGo w fuel 0 []

/-- Number of 100-element chunks of line 95. -/
def numChunks (n : Nat) : Nat := (n + 99) / 100

/-- The batch-read loop of lines 95-103: `if not r: break` returns the
partial result on a missing or >= 400 response; the `raise_for_status`
after it can never fire. -/
def batchGo (w : World) : Nat → Nat → List Json → Except PyErr (List Json)
  | 0, _, out => .ok out
  | k + 1, i, out =>
    match w.batchRead i with
    | none => .ok out
    | some r =>
      if 400 ≤ r.status then .ok out
      else do
        let _ ← raise_for_status r
        let resultsV ← Json.pyGetD r.body "results" (.arr [])
        let items ← Json.pyIter resultsV
        batchGo w k (i + 1) (out ++ items)

/-- hs_batch_read_contacts (lines 89-105). -/
def hs_batch_read_contacts (w : World) (ids : List String) : Except PyErr (List Json) :=
  if ids.isEmpty then .ok []
  else batchGo w (numChunks ids.length) 0 []

/-- Python `<` between sorted-comparable scalars (strings with strings,
numbers/booleans numerically); mixed types raise TypeError, as `sorted`
does on a mixed owner-id list. -/
def pyLtJ : Json → Json → Except PyErr Bool
  | .str a, .str b => .ok (strLt a b)
  | .num a, .num b => .ok (decide (a < b))
  | .num a, .bool b => .ok (decide (a < if b then 1 else 0))
  | .bool a, .num b => .ok (decide ((if a then (1 : Int) else 0) < b))
  | .bool a, .bool b => .ok (decide ((if a then (1 : Int) else 0) < if b then 1 else 0))
  | _, _ => .error .typeError

/-- Stable insertion with the fallible Python comparison. -/
def pyInsertSorted (x : Json) : List Json → Except PyErr (List Json)
  | [] => .ok [x]
  | y :: ys => do
    let b ← pyLtJ y x
    if b then do
      let rest ← pyInsertSorted x ys
      .ok (y :: rest)
    else .ok (x :: y :: ys)

/-- Python `sorted` as a stable insertion sort with fallible comparison. -/
def pySorted : List Json → Except PyErr (List Json)
  | [] => .ok []
  | x :: xs => do
    let rest ← pySorted xs
    pyInsertSorted x rest

/-- Python `set()` construction order: first occurrence kept, `==` dedup.
Hashability of the members has been checked where they were produced. -/
def dedupPyAux : List Json → List Json → List Json
  | [], _ => []
  | x :: xs, seen =>
    if seen.any (fun y => Json.pyEq y x) then dedupPyAux xs seen
    else x :: dedupPyAux xs (x :: seen)

def dedupPy (l : List Json) : List Json := dedupPyAux l []

/-- Lines 114-121, the body of the per-owner try block: everything in it is
caught by `except Exception: pass`. -/
def ownerBody (r : Resp) (oid : Json) : Except PyErr (Option (String × String)) := do
  let _ ← raise_for_status r
  let data := Json.pyOr r.body (.obj [])
  let emailJ ← Json.pyGet data "email"
  let email ← Json.pyStripLower (Json.pyOr emailJ (.str ""))
  if email.isEmpty then .ok none
  else do
    let idJ ← Json.pyGet data "id"
    .ok (some (Json.pyStr (Json.pyOr idJ oid), email))

/-- One iteration of the owner-resolution loop (lines 110-122). -/
def ownerStep (w : World) (mapping : List (String × String)) (oid : Json) :
    List (String × String) :=
  match w.ownerLookup (Json.pyStr oid) with
  | none => mapping
  | some r =>
    if 400 ≤ r.status ∨ r.status = 404 then mapping
    else
      match ownerBody r oid with
      | .ok (some kv) => strDictSet mapping kv.1 kv.2
      | .ok none => mapping
      | .error _ => mapping

/-- hs_owner_email_map (lines 107-124): resolve the sorted set of truthy
owner ids, one lookup each, building the id-string -> email map. -/
def hs_owner_email_map (w : World) (ownerIds : List Json) :
    Except PyErr (List (String × String)) := do
  let unique ← pySorted (dedupPy (ownerIds.filter Json.truthy))
  .ok (unique.foldl (ownerStep w) [])

/-- The owner-id set comprehension of lines 273-277: collect the truthy
`hubspot_owner_id` values; adding an unhashable value to the set raises. -/
def collectOwnerIds : List Json → Except PyErr (List Json)
  | [] => .ok []
  | c :: rest => do
    let props ← Json.pyGet c "properties"
    let oid ← Json.pyGet (Json.pyOr props (.obj [])) "hubspot_owner_id"
    if oid.truthy then
      if oid.hashable then do
        let restIds ← collectOwnerIds rest
        .ok (oid :: restIds)
      else .error .typeError
    else collectOwnerIds rest

/-- The customer-to-owner map construction of lines 280-289 (last write
wins on a repeated customer email). -/
def custToOwnerGo (ownerMap : List (String × String)) :
    List Json → List (String × String) → Except PyErr (List (String × String))
  | [], cto => .ok cto
  | c :: rest, cto => do
    let props ← Json.pyGet c "properties"
    let p := Json.pyOr props (.obj [])
    let ceJ ← Json.pyGet p "email"
    let ce ← Json.pyStripLower (Json.pyOr ceJ (.str ""))
    let oidJ ← Json.pyGet p "hubspot_owner_id"
    let oid ← Json.pyStrip (Json.pyOr oidJ (.str ""))
    if ce.isEmpty then custToOwnerGo ownerMap rest cto
    else
      match strDictFind ownerMap oid with
      | some oe => custToOwnerGo ownerMap rest (strDictSet cto ce oe)
      | none => custToOwnerGo ownerMap rest cto

/-- Line 291: `sorted(cust_to_owner.keys())`. -/
def sortedEmails (cto : List (String × String)) : List String :=
  sortLt strLt (cto.map Prod.fst)

/-- Lines 292-293: the optional allow-list filter; an empty list is falsy,
so no filtering happens. -/
def applyOnly (only : List String) (emails : List String) : List String :=
  if only.isEmpty then emails
  else emails.filter (fun e => (only.map (fun x => pyLowerStr (pyStripStr x))).contains e)

/-- The defaultdict(list) grouping of lines 302-304: append each customer
email to its owner group, creating groups in first-appearance order.  A
customer email missing from the map would be a KeyError; it cannot happen
because the emails are drawn from the map keys. -/
def groupAdd : List (String × List String) → String → String → List (String × List String)
  | [], k, v => [(k, [v])]
  | (k0, vs) :: rest, k, v =>
    if k0 = k then (k0, vs ++ [v]) :: rest else (k0, vs) :: groupAdd rest k v

def groupByOwnerGo (cto : List (String × String)) :
    List String → List (String × List String) → Except PyErr (List (String × List String))
  | [], gs => .ok gs
  | ce :: rest, gs =>
    match strDictFind cto ce with
    | some oe => groupByOwnerGo cto rest (groupAdd gs oe ce)
    | none => .error .keyError

/-- One paginated attempt of av_list_meetings_by_organizer (lines 140-155)
under one parameter style.  Returns the accumulated items and the number of
requests issued for this style.  `if not r: break` stops on a missing or
>= 400 response (so the 400/404 check and `raise_for_status` after it are
unreachable); `data = r.json() or {}`; a truthy non-dict body raises
AttributeError at `data.get`; a truthy non-list chunk breaks BEFORE
extending; a falsy `next` breaks after extending. -/
def avGo (w : World) (org : String) (style : Nat) :
    Nat → Nat → List Json → Except PyErr (List Json × Nat)
  | 0, i, items => .ok (items, i)
  | rem + 1, i, items =>
    match w.avPage org style i with
    | none => .ok (items, i + 1)
    | some r =>
      if 400 ≤ r.status then .ok (items, i + 1)
      else if r.status = 400 ∨ r.status = 404 then .ok (items, i + 1)
      else do
        let _ ← raise_for_status r
        let data := Json.pyOr r.body (.obj [])
        let res ← Json.pyGet data "results"
        let mts ← Json.pyGet data "meetings"
        let chunk := Json.pyOr res (Json.pyOr mts (.arr []))
        match chunk with
        | .arr xs => do
          let nxt ← Json.pyGet data "next"
          if nxt.truthy then avGo w org style rem (i + 1) (items ++ xs)
          else .ok (items ++ xs, i + 1)
        | _ => .ok (items, i + 1)

/-- Requests issued to the meeting-list endpoint, by parameter style. -/
structure AvTrace where
  style0Pages : Nat
  style1Pages : Nat
deriving DecidableEq

/-- av_list_meetings_by_organizer (lines 130-159): try the primary
parameter style for up to `max 1 pages` pages; `if items: break` switches
to the alternate style only when the first attempt accumulated nothing.
The second attempt keeps extending the same `items` list. -/
def av_list_meetings_by_organizer (w : World) (org : String) (pages : Nat) :
    Except PyErr (List Json × AvTrace) := do
  let s0 ← avGo w org 0 (max 1 pages) 0 []
  if s0.1.isEmpty then do
    let s1 ← avGo w org 1 (max 1 pages) 0 s0.1
    .ok (s1.1, ⟨s0.2, s1.2⟩)
  else .ok (s0.1, ⟨s0.2, 0⟩)

/-- Third transcript fallback (lines 169-175). -/
def trThird (w : World) (mid : String) : Option Json :=
  match w.trMeetingList mid with
  | some r3 =>
    if r3.status = 200 then
      let data := r3.body
      let items := match data with
        | .obj fs => (Json.dictFind fs "results").getD data
        | _ => data
      match items with
      | .arr (x :: _) => some x
      | _ => none
    else none
  | none => none

/-- Second transcript fallback (lines 165-168), tried only under a truthy
transcription uuid, then falling through to the third. -/
def trSecond (w : World) (mid : String) (tuuid : Json) : Option Json :=
  if tuuid.truthy then
    match w.trTranscription (Json.pyStr tuuid) with
    | some r2 => if r2.status = 200 then some r2.body else trThird w mid
    | none => trThird w mid
  else trThird w mid

/-- av_fetch_transcript_json (lines 161-175): three endpoints in order,
each used only on a present 200 response (`r and r.status_code == 200`);
total — it can only return None, never raise. -/
def av_fetch_transcript_json (w : World) (mid : String) (tuuid : Json) : Option Json :=
  match w.trMeeting mid with
  | some r => if r.status = 200 then some r.body else trSecond w mid tuuid
  | none => trSecond w mid tuuid

/-- The pipeline's run summary (line 265). -/
structure Summary where
  contacts_processed : Nat
  emails_found : Nat
  meetings_found : Nat
  transcripts_posted : Nat
  errors : List String
deriving DecidableEq

def initSummary : Summary := ⟨0, 0, 0, 0, []⟩

/-- Webhook success statuses of line 361. -/
def webhookOkStatus (s : Nat) : Bool := s == 200 || s == 201 || s == 202 || s == 204

/-- The error string of line 364 (`str` interpolation of the meeting id
and the status, or the literal no-response). -/
def webhookErrMsg (mid : Json) (wr : Option Resp) : String :=
  "Webhook failed for meeting " ++ Json.pyStr mid ++ ": " ++
    (match wr with | some r => toString r.status | none => "no-response")

/-- The per-customer leaf body (lines 312-367): filter, stable sort, take
the earliest, resolve a meeting id, fetch and normalize a transcript, and
attempt the webhook; every `continue` guard in source order.  `n` counts
webhook attempts (the oracle key for line 360).  The payload construction
of lines 346-358 re-evaluates only expressions that already succeeded
during filtering of the same dict, so it is dropped.  `meetings_found`
grows by `filtered.length` at line 367, after the webhook attempt,
whatever its outcome. -/
def leafStep (w : World) (pts : String → Option Int) (cutoff : Int)
    (org : String) (items : List Json) (cust : String)
    (s : Summary) (n : Nat) : Except PyErr (Summary × Nat) := do
  let filtered ← Json.filterMeetings pts org cust cutoff items
  if filtered.isEmpty then .ok (s, n)
  else do
    let m := (Json.sortMeetings pts filtered).headD .null
    let u ← Json.pyGet m "uuid"
    let i ← Json.pyGet m "id"
    let mi ← Json.pyGet m "meetingId"
    let mid := Json.pyOr u (Json.pyOr i mi)
    if !mid.truthy then .ok (s, n)
    else do
      let tuuid ← Json.pyGet m "transcription_uuid"
      let tJson := (av_fetch_transcript_json w (Json.pyStr mid) tuuid).getD .null
      if !tJson.truthy then .ok (s, n)
      else do
        let plain ← Json.transcript_json_to_text tJson
        if plain.isEmpty then .ok (s, n)
        else
          let wr := w.webhook n
          let ok := match wr with
            | some r => webhookOkStatus r.status
            | none => false
          let s2 := if ok then { s with transcripts_posted := s.transcripts_posted + 1 }
                    else { s with errors := s.errors ++ [webhookErrMsg mid wr] }
          .ok ({ s2 with meetings_found := s2.meetings_found + filtered.length }, n + 1)

/-- The inner customer loop of line 311. -/
def custLoop (w : World) (pts : String → Option Int) (cutoff : Int)
    (org : String) (items : List Json) :
    List String → Summary → Nat → Except PyErr (Summary × Nat)
  | [], s, n => .ok (s, n)
  | cust :: rest, s, n => do
    let sn ← leafStep w pts cutoff org items cust s n
    custLoop w pts cutoff org items rest sn.1 sn.2

/-- The organizer loop of lines 306-367.  The second component is the
trace of organizers for which the meeting-fetch was issued, in order,
kept even when an exception escapes. -/
def orgLoop (w : World) (pts : String → Option Int) (cutoff : Int) (pages : Nat) :
    List (String × List String) → Summary → Nat → List String →
    Except PyErr (Summary × Nat) × List String
  | [], s, n, tr => (.ok (s, n), tr)
  | (org, custs) :: rest, s, n, tr =>
    match av_list_meetings_by_organizer w org pages with
    | .error e => (.error e, tr ++ [org])
    | .ok it =>
      if it.1.isEmpty then orgLoop w pts cutoff pages rest s n (tr ++ [org])
      else
        match custLoop w pts cutoff org it.1 custs s n with
        | .error e => (.error e, tr ++ [org])
        | .ok sn => orgLoop w pts cutoff pages rest sn.1 sn.2 (tr ++ [org])

/-- The two early returns and the derived grouping. -/
inductive PrepResult where
  | early (s : Summary)
  | go (s : Summary) (groups : List (String × List String))

/-- Lines 267-304: list membership, batch read, owner resolution,
customer-to-owner map, the sorted (optionally filtered) email list, and
the grouping by owner; `early` is a pre-loop `return results`. -/
def prep (w : World) (fuel : Nat) (only : List String) : Except PyErr PrepResult := do
  let ids ← hs_get_list_member_ids w fuel
  let s := { initSummary with contacts_processed := ids.length }
  if ids.isEmpty then .ok (.early s)
  else do
    let contacts ← hs_batch_read_contacts w ids
    let ownerIds ← collectOwnerIds contacts
    let ownerMap ← hs_owner_email_map w ownerIds
    let cto ← custToOwnerGo ownerMap contacts []
    let emails := applyOnly only (sortedEmails cto)
    let s2 := { s with emails_found := emails.length }
    if emails.isEmpty then .ok (.early s2)
    else do
      let groups ← groupByOwnerGo cto emails []
      .ok (.go s2 groups)

/-- run_pipeline (lines 254-369) over the oracle, with the meeting-fetch
trace.  `fuel` bounds the membership `while True` loop; `pts`/`now`/`days`
feed the cutoff of line 300. -/
def run_pipeline (w : World) (pts : String → Option Int) (fuel : Nat)
    (only : List String) (now days : Int) (pages : Nat) :
    Except PyErr (Summary × Nat) × List String :=
  match prep w fuel only with
  | .error e => (.error e, [])
  | .ok (.early s) => (.ok (s, 0), [])
  | .ok (.go s groups) => orgLoop w pts (now - days * 86400) pages groups s 0 []

/-! ## Concrete worlds used as witnesses and counterexamples -/

/-- Two contacts sharing owner 7, with mixed-case emails. -/
def c1c1 : Json := .obj [("properties", .obj [("email", .str "A@X.com"), ("hubspot_owner_id", .str "7")])]

def c1c2 : Json := .obj [("properties", .obj [("email", .str "b@x.com"), ("hubspot_owner_id", .str "7")])]

/-- A meeting both customers attended, organized by the owner. -/
def m1w : Json := .obj [("uuid", .str "u1"), ("organizer_email", .str "Own@X.com"),
  ("attendees", .arr [.obj [("email", .str "a@x.com")], .obj [("email", .str "b@x.com")],
    .obj [("email", .str "own@x.com")]]),
  ("transcript_ready", .bool true)]

/-- A fully healthy world: one list page with two contacts, one owner, one
meeting attended by both customers, a transcript, a webhook that accepts
the first post and 500s the second. -/
def wOK : World := {
  listMeta := some ⟨200, .null⟩
  memberships := fun _ => some ⟨200, .obj [("results",
    .arr [.obj [("recordId", .str "1")], .obj [("recordId", .str "2")]])]⟩
  batchRead := fun _ => some ⟨200, .obj [("results", .arr [c1c1, c1c2])]⟩
  ownerLookup := fun _ => some ⟨200, .obj [("email", .str "Own@X.com"), ("id", .str "7")]⟩
  avPage := fun _ _ _ => some ⟨200, .obj [("results", .arr [m1w])]⟩
  trMeeting := fun _ => some ⟨200, .str "hello"⟩
  trTranscription := fun _ => none
  trMeetingList := fun _ => none
  webhook := fun n => if n = 0 then some ⟨200, .null⟩ else some ⟨500, .null⟩ }

/-- The summary a full run of `wOK` produces. -/
def sOK : Summary := ⟨2, 2, 2, 1, ["Webhook failed for meeting u1: 500"]⟩

/-- Primary-style fetch: one page of one meeting, then a 400 on page 1;
the alternate style would answer every page with one meeting. -/
def w6 : World := {
  listMeta := none, memberships := fun _ => none, batchRead := fun _ => none,
  ownerLookup := fun _ => none,
  avPage := fun _ style i =>
    if style = 0 then
      if i = 0 then some ⟨200, .obj [("results", .arr [.str "m0"]), ("next", .str "n")]⟩
      else some ⟨400, .null⟩
    else some ⟨200, .obj [("results", .arr [.str "alt"])]⟩,
  trMeeting := fun _ => none, trTranscription := fun _ => none,
  trMeetingList := fun _ => none, webhook := fun _ => none }

/-- A world whose HubSpot list-metadata request answers 400. -/
def w400 : World := {
  listMeta := some ⟨400, .null⟩, memberships := fun _ => none, batchRead := fun _ => none,
  ownerLookup := fun _ => none, avPage := fun _ _ _ => none, trMeeting := fun _ => none,
  trTranscription := fun _ => none, trMeetingList := fun _ => none, webhook := fun _ => none }

/-- A world where every transcript endpoint is unreachable. -/
def w10 : World := {
  listMeta := none, memberships := fun _ => none, batchRead := fun _ => none,
  ownerLookup := fun _ => none, avPage := fun _ _ _ => none,
  trMeeting := fun _ => none, trTranscription := fun _ => none,
  trMeetingList := fun _ => none, webhook := fun _ => none }

/-! ## Page-loop lemmas -/

/-- The request counter never decreases across a page loop. -/
theorem avGo_mono (w : World) (org : String) (style : Nat) :
    ∀ (fuel i : Nat) (acc items : List Json) (c : Nat),
      avGo w org style fuel i acc = .ok (items, c) → i ≤ c := by
  intro fuel
  induction fuel with
  | zero =>
    intro i acc items c h
    simp only [avGo] at h
    cases h
    omega
  | succ rem ih =>
    intro i acc items c h
    simp only [avGo] at h
    cases hor : w.avPage org style i with
    | none =>
      simp only [hor] at h
      obtain ⟨h1, h2⟩ := h
      omega
    | some r =>
      simp only [hor] at h
      by_cases h4 : 400 ≤ r.status
      · rw [if_pos h4] at h; cases h; omega
      · rw [if_neg h4] at h
        by_cases h44 : r.status = 400 ∨ r.status = 404
        · rw [if_pos h44] at h; cases h; omega
        · rw [if_neg h44] at h
          have hrf : raise_for_status r = .ok () := by
            unfold raise_for_status; rw [if_neg h4]
          rw [hrf] at h
          simp only [Json.exc_bind_ok] at h
          cases hres : Json.pyGet (Json.pyOr r.body (.obj [])) "results" with
          | error e => rw [hres] at h; cases h
          | ok res =>
            rw [hres] at h
            simp only [Json.exc_bind_ok] at h
            cases hmts : Json.pyGet (Json.pyOr r.body (.obj [])) "meetings" with
            | error e => rw [hmts] at h; cases h
            | ok mts =>
              rw [hmts] at h
              simp only [Json.exc_bind_ok] at h
              split at h
              · cases hnx : Json.pyGet (Json.pyOr r.body (.obj [])) "next" with
                | error e => rw [hnx] at h; cases h
                | ok nxt =>
                  rw [hnx] at h
                  simp only [Json.exc_bind_ok] at h
                  split at h
                  · have := ih (i + 1) _ _ _ h
                    omega
                  · cases h; omega
              · cases h; omega

/-- A page loop with a positive page budget issues at least one request. -/
theorem avGo_pos (w : World) (org : String) (style : Nat)
    (rem : Nat) (acc items : List Json) (c : Nat)
    (h : avGo w org style (rem + 1) 0 acc = .ok (items, c)) : 1 ≤ c := by
  simp only [avGo] at h
  cases hor : w.avPage org style 0 with
  | none =>
      simp only [hor] at h
      obtain ⟨h1, h2⟩ := h
      omega
  | some r =>
    simp only [hor] at h
    by_cases h4 : 400 ≤ r.status
    · rw [if_pos h4] at h; cases h; omega
    · rw [if_neg h4] at h
      by_cases h44 : r.status = 400 ∨ r.status = 404
      · rw [if_pos h44] at h; cases h; omega
      · rw [if_neg h44] at h
        have hrf : raise_for_status r = .ok () := by
          unfold raise_for_status; rw [if_neg h4]
        rw [hrf] at h
        simp only [Json.exc_bind_ok] at h
        cases hres : Json.pyGet (Json.pyOr r.body (.obj [])) "results" with
        | error e => rw [hres] at h; cases h
        | ok res =>
          rw [hres] at h
          simp only [Json.exc_bind_ok] at h
          cases hmts : Json.pyGet (Json.pyOr r.body (.obj [])) "meetings" with
          | error e => rw [hmts] at h; cases h
          | ok mts =>
            rw [hmts] at h
            simp only [Json.exc_bind_ok] at h
            split at h
            · cases hnx : Json.pyGet (Json.pyOr r.body (.obj [])) "next" with
              | error e => rw [hnx] at h; cases h
              | ok nxt =>
                rw [hnx] at h
                simp only [Json.exc_bind_ok] at h
                split at h
                · have := avGo_mono w org style _ _ _ _ _ h
                  omega
                · cases h; omega
            · cases h; omega

/-- C6: the literal claim is wrong about fall-through: a 400 at page 1 of
the primary convention aborts the page loop, but because page 0 already
yielded a meeting, `if items: break` leaves without ever querying the
alternate convention (0 alternate requests), even though the alternate
convention was available and would have answered with results. -/
theorem c6_no_fallthrough_after_abort :
    w6.avPage "o" 0 1 = some ⟨400, .null⟩ ∧
    av_list_meetings_by_organizer w6 "o" 3 = .ok ([.str "m0"], ⟨2, 0⟩) ∧
    avGo w6 "o" 1 3 0 [] = .ok ([.str "alt"], 1) :=
  ⟨rfl, rfl, rfl⟩

/-- C6 (amended): a successful fetch returns the pages of exactly one
convention: either the primary convention yielded a non-empty union and
the alternate was never queried, or the primary's entire paginated fetch
yielded zero items and the result is the alternate convention's union
(with at least one alternate request issued); and a >= 400 response
(which includes 400 and 404) at any page ends that convention's page loop
at the items accumulated so far. -/
theorem c6_convention_fallback (w : World) (org : String) (pages : Nat)
    (items : List Json) (tr : AvTrace)
    (h : av_list_meetings_by_organizer w org pages = .ok (items, tr)) :
    ((avGo w org 0 (max 1 pages) 0 [] = .ok (items, tr.style0Pages) ∧ items ≠ [] ∧
        tr.style1Pages = 0) ∨
      (avGo w org 0 (max 1 pages) 0 [] = .ok ([], tr.style0Pages) ∧
        avGo w org 1 (max 1 pages) 0 [] = .ok (items, tr.style1Pages) ∧
        1 ≤ tr.style1Pages)) ∧
    (∀ style rem i acc r, w.avPage org style i = some r → 400 ≤ r.status →
      avGo w org style (rem + 1) i acc = .ok (acc, i + 1)) := by
  constructor
  · unfold av_list_meetings_by_organizer at h
    cases h0 : avGo w org 0 (max 1 pages) 0 [] with
    | error e => rw [h0] at h; cases h
    | ok s0 =>
      obtain ⟨its0, c0⟩ := s0
      rw [h0] at h
      simp only [Json.exc_bind_ok] at h
      split at h
      · rename_i hemp
        have he : its0 = [] := by simpa using hemp
        subst he
        cases h1 : avGo w org 1 (max 1 pages) 0 [] with
        | error e => rw [h1] at h; cases h
        | ok s1 =>
          rw [h1] at h
          simp only [Json.exc_bind_ok] at h
          cases h
          right
          refine ⟨rfl, rfl, ?_⟩
          have hf : 1 ≤ max 1 pages := Nat.le_max_left 1 pages
          cases hm : max 1 pages with
          | zero => omega
          | succ rem =>
            rw [hm] at h1
            exact avGo_pos w org 1 rem [] _ _ h1
      · rename_i hemp
        cases h
        left
        refine ⟨rfl, ?_, rfl⟩
        intro hnil
        exact hemp (by simp [hnil])
  · intro style rem i acc r hr hs
    simp only [avGo, hr]
    rw [if_pos hs]

/-- Witness: the amended convention-fallback theorem applied to `w6`. -/
theorem c6_convention_fallback_witness :
    avGo w6 "o" 0 (max 1 3) 0 [] = .ok ([Json.str "m0"], 2) ∧
    avGo w6 "o" 0 2 1 [Json.str "m0"] = .ok ([Json.str "m0"], 2) := by
  have h := c6_convention_fallback w6 "o" 3 [Json.str "m0"] ⟨2, 0⟩ rfl
  constructor
  · rcases h.1 with ⟨h1, -, -⟩ | ⟨h1, -, -⟩
    · exact h1
    · simp only [show avGo w6 "o" 0 (max 1 3) 0 [] = .ok ([Json.str "m0"], 2) from rfl] at h1
      simp at h1
  · exact h.2 0 1 1 [Json.str "m0"] ⟨400, .null⟩ rfl (Nat.le_refl 400)

/-! ## Leaf-step analysis (lines 312-367) -/

/-- Each leaf either skips (an empty filter result, a falsy meeting id, a
missing/falsy transcript, or empty normalized text) leaving the summary
and the webhook-attempt counter untouched, or makes exactly one webhook
attempt, after which either `transcripts_posted` grew by one or exactly
one error line was appended, and `meetings_found` grew by the number of
eligible meetings of this leaf (line 367). -/
theorem leafStep_spec (w : World) (pts : String → Option Int) (cutoff : Int)
    (org : String) (items : List Json) (cust : String) (s : Summary) (n : Nat)
    (s2 : Summary) (n2 : Nat)
    (h : leafStep w pts cutoff org items cust s n = .ok (s2, n2)) :
    (s2 = s ∧ n2 = n) ∨
    (n2 = n + 1 ∧
      s2.contacts_processed = s.contacts_processed ∧
      s2.emails_found = s.emails_found ∧
      s2.transcripts_posted + s2.errors.length = s.transcripts_posted + s.errors.length + 1 ∧
      ∃ filtered, Json.filterMeetings pts org cust cutoff items = .ok filtered ∧
        filtered ≠ [] ∧ s2.meetings_found = s.meetings_found + filtered.length) := by
  unfold leafStep at h
  cases hf : Json.filterMeetings pts org cust cutoff items with
  | error e => rw [hf] at h; cases h
  | ok filtered =>
    rw [hf] at h
    simp only [Json.exc_bind_ok] at h
    split at h
    · cases h; exact Or.inl ⟨rfl, rfl⟩
    · rename_i hfe
      have hne : filtered ≠ [] := by
        intro hnil; exact hfe (by simp [hnil])
      cases hu : Json.pyGet ((Json.sortMeetings pts filtered).headD .null) "uuid" with
      | error e => rw [hu] at h; cases h
      | ok u =>
        rw [hu] at h
        simp only [Json.exc_bind_ok] at h
        cases hi : Json.pyGet ((Json.sortMeetings pts filtered).headD .null) "id" with
        | error e => rw [hi] at h; cases h
        | ok i =>
          rw [hi] at h
          simp only [Json.exc_bind_ok] at h
          cases hmi : Json.pyGet ((Json.sortMeetings pts filtered).headD .null) "meetingId" with
          | error e => rw [hmi] at h; cases h
          | ok mi =>
            rw [hmi] at h
            simp only [Json.exc_bind_ok] at h
            split at h
            · cases h; exact Or.inl ⟨rfl, rfl⟩
            · cases ht : Json.pyGet ((Json.sortMeetings pts filtered).headD .null)
                  "transcription_uuid" with
              | error e => rw [ht] at h; cases h
              | ok tuuid =>
                rw [ht] at h
                simp only [Json.exc_bind_ok] at h
                split at h
                · cases h; exact Or.inl ⟨rfl, rfl⟩
                · cases hp : Json.transcript_json_to_text
                      ((av_fetch_transcript_json w
                        (Json.pyStr (Json.pyOr u (Json.pyOr i mi))) tuuid).getD .null) with
                  | error e => rw [hp] at h; cases h
                  | ok plain =>
                    rw [hp] at h
                    simp only [Json.exc_bind_ok] at h
                    split at h
                    · cases h; exact Or.inl ⟨rfl, rfl⟩
                    · cases h
                      right
                      refine ⟨rfl, ?_, ?_, ?_, filtered, rfl, hne, ?_⟩ <;>
                        split <;> simp [List.length_append] <;> omega

/-- Webhook accounting across the customer loop: posted plus recorded
errors grows exactly with the webhook-attempt counter. -/
theorem custLoop_acct (w : World) (pts : String → Option Int) (cutoff : Int)
    (org : String) (items : List Json) :
    ∀ (custs : List String) (s : Summary) (n : Nat) (s2 : Summary) (n2 : Nat),
      custLoop w pts cutoff org items custs s n = .ok (s2, n2) →
      s2.transcripts_posted + s2.errors.length + n =
        s.transcripts_posted + s.errors.length + n2 := by
  intro custs
  induction custs with
  | nil =>
    intro s n s2 n2 h
    simp only [custLoop] at h
    cases h
    omega
  | cons cust rest ih =>
    intro s n s2 n2 h
    simp only [custLoop] at h
    cases hl : leafStep w pts cutoff org items cust s n with
    | error e => rw [hl] at h; cases h
    | ok sn =>
      obtain ⟨s1, n1⟩ := sn
      rw [hl] at h
      simp only [Json.exc_bind_ok] at h
      have hrec := ih s1 n1 s2 n2 h
      rcases leafStep_spec w pts cutoff org items cust s n s1 n1 hl with
        ⟨hs, hn⟩ | ⟨hn, -, -, hacct, -⟩
      · subst hs; subst hn; omega
      · omega

/-- The fetch trace of the organizer loop is the already-made trace
extended by a prefix of the grouping keys (the whole key list when no
exception cuts the loop short). -/
theorem orgLoop_trace (w : World) (pts : String → Option Int) (cutoff : Int)
    (pages : Nat) :
    ∀ (groups : List (String × List String)) (s : Summary) (n : Nat) (tr : List String),
      ∃ t t2, (orgLoop w pts cutoff pages groups s n tr).2 = tr ++ t ∧
        groups.map Prod.fst = t ++ t2 := by
  intro groups
  induction groups with
  | nil =>
    intro s n tr
    exact ⟨[], [], by simp [orgLoop], by simp⟩
  | cons g rest ih =>
    intro s n tr
    obtain ⟨org, custs⟩ := g
    simp only [orgLoop]
    cases hav : av_list_meetings_by_organizer w org pages with
    | error e =>
      exact ⟨[org], rest.map Prod.fst, by simp, by simp⟩
    | ok it =>
      dsimp only
      by_cases hemp : it.1.isEmpty = true
      · rw [if_pos hemp]
        obtain ⟨t, t2, h1, h2⟩ := ih s n (tr ++ [org])
        exact ⟨[org] ++ t, t2, by simpa [List.append_assoc] using h1, by simp [h2]⟩
      · rw [if_neg hemp]
        cases hc : custLoop w pts cutoff org it.1 custs s n with
        | error e =>
          exact ⟨[org], rest.map Prod.fst, by simp, by simp⟩
        | ok sn =>
          obtain ⟨t, t2, h1, h2⟩ := ih sn.1 sn.2 (tr ++ [org])
          exact ⟨[org] ++ t, t2, by simpa [List.append_assoc] using h1, by simp [h2]⟩

/-- On a loop that completes, the trace is exactly the grouping keys and
the webhook accounting carries through. -/
theorem orgLoop_ok (w : World) (pts : String → Option Int) (cutoff : Int)
    (pages : Nat) :
    ∀ (groups : List (String × List String)) (s : Summary) (n : Nat) (tr : List String)
      (s2 : Summary) (n2 : Nat) (tr2 : List String),
      orgLoop w pts cutoff pages groups s n tr = (.ok (s2, n2), tr2) →
      tr2 = tr ++ groups.map Prod.fst ∧
      s2.transcripts_posted + s2.errors.length + n =
        s.transcripts_posted + s.errors.length + n2 := by
  intro groups
  induction groups with
  | nil =>
    intro s n tr s2 n2 tr2 h
    simp only [orgLoop] at h
    cases h
    exact ⟨by simp, by omega⟩
  | cons g rest ih =>
    intro s n tr s2 n2 tr2 h
    obtain ⟨org, custs⟩ := g
    simp only [orgLoop] at h
    cases hav : av_list_meetings_by_organizer w org pages with
    | error e => rw [hav] at h; cases h
    | ok it =>
      rw [hav] at h
      dsimp only at h
      by_cases hemp : it.1.isEmpty = true
      · rw [if_pos hemp] at h
        obtain ⟨h1, h2⟩ := ih s n (tr ++ [org]) s2 n2 tr2 h
        exact ⟨by simp [h1], h2⟩
      · rw [if_neg hemp] at h
        cases hc : custLoop w pts cutoff org it.1 custs s n with
        | error e => rw [hc] at h; cases h
        | ok sn =>
          rw [hc] at h
          obtain ⟨h1, h2⟩ := ih sn.1 sn.2 (tr ++ [org]) s2 n2 tr2 h
          have h3 := custLoop_acct w pts cutoff org it.1 custs s n sn.1 sn.2 hc
          exact ⟨by simp [h1], by omega⟩

/-- The keys of the grouping map after one append. -/
theorem groupAdd_keys (k : String) (v : String) :
    ∀ gs : List (String × List String),
      (groupAdd gs k v).map Prod.fst =
        if k ∈ gs.map Prod.fst then gs.map Prod.fst else gs.map Prod.fst ++ [k] := by
  intro gs
  induction gs with
  | nil => simp [groupAdd]
  | cons g rest ih =>
    obtain ⟨k0, vs⟩ := g
    simp only [groupAdd]
    by_cases hk : k0 = k
    · subst hk
      simp
    · rw [if_neg hk]
      simp only [List.map_cons, ih, List.mem_cons]
      by_cases hm : k ∈ rest.map Prod.fst
      · simp [hm, Ne.symm hk]
      · simp [hm, Ne.symm hk]

/-- The grouping loop keeps the group keys duplicate-free. -/
theorem groupByOwnerGo_nodup (cto : List (String × String)) :
    ∀ (es : List String) (gs groups : List (String × List String)),
      (gs.map Prod.fst).Nodup → groupByOwnerGo cto es gs = .ok groups →
      (groups.map Prod.fst).Nodup := by
  intro es
  induction es with
  | nil =>
    intro gs groups hn h
    simp only [groupByOwnerGo] at h
    cases h
    exact hn
  | cons ce rest ih =>
    intro gs groups hn h
    simp only [groupByOwnerGo] at h
    cases hfind : strDictFind cto ce with
    | none => rw [hfind] at h; cases h
    | some oe =>
      rw [hfind] at h
      refine ih (groupAdd gs oe ce) groups ?_ h
      rw [groupAdd_keys]
      by_cases hm : oe ∈ gs.map Prod.fst
      · rw [if_pos hm]; exact hn
      · rw [if_neg hm]
        simp [List.nodup_append, hn, hm]

/-- The summary prep builds carries no posted transcripts and no errors,
and the grouping it hands to the organizer loop has duplicate-free keys. -/
theorem prep_clean (w : World) (fuel : Nat) (only : List String) (r : PrepResult)
    (h : prep w fuel only = .ok r) :
    (∀ s, r = .early s → s.transcripts_posted = 0 ∧ s.errors = []) ∧
    (∀ s groups, r = .go s groups →
      s.transcripts_posted = 0 ∧ s.errors = [] ∧ (groups.map Prod.fst).Nodup) := by
  unfold prep at h
  cases hids : hs_get_list_member_ids w fuel with
  | error e => rw [hids] at h; cases h
  | ok ids =>
    rw [hids] at h
    simp only [Json.exc_bind_ok] at h
    split at h
    · cases h
      refine ⟨fun s hs => ?_, fun s groups hg => ?_⟩
      · cases hs; exact ⟨rfl, rfl⟩
      · cases hg
    · cases hc : hs_batch_read_contacts w ids with
      | error e => rw [hc] at h; cases h
      | ok contacts =>
        rw [hc] at h
        simp only [Json.exc_bind_ok] at h
        cases ho : collectOwnerIds contacts with
        | error e => rw [ho] at h; cases h
        | ok ownerIds =>
          rw [ho] at h
          simp only [Json.exc_bind_ok] at h
          cases hm : hs_owner_email_map w ownerIds with
          | error e => rw [hm] at h; cases h
          | ok ownerMap =>
            rw [hm] at h
            simp only [Json.exc_bind_ok] at h
            cases hcto : custToOwnerGo ownerMap contacts [] with
            | error e => rw [hcto] at h; cases h
            | ok cto =>
              rw [hcto] at h
              simp only [Json.exc_bind_ok] at h
              split at h
              · cases h
                refine ⟨fun s hs => ?_, fun s groups hg => ?_⟩
                · cases hs; exact ⟨rfl, rfl⟩
                · cases hg
              · cases hg2 : groupByOwnerGo cto (applyOnly only (sortedEmails cto)) [] with
                | error e => rw [hg2] at h; cases h
                | ok groups =>
                  rw [hg2] at h
                  simp only [Json.exc_bind_ok] at h
                  cases h
                  refine ⟨fun s hs => ?_, fun s gs hg => ?_⟩
                  · cases hs
                  · cases hg
                    exact ⟨rfl, rfl,
                      groupByOwnerGo_nodup cto (applyOnly only (sortedEmails cto)) [] groups
                        (by simp) hg2⟩

/-- C1: the literal claim fails: on a world whose HubSpot list-metadata
request answers 400, run_pipeline raises RuntimeError (line 68) instead of
completing with a summary — the permanent-failure status escapes the run
and nothing is recorded in the error list. -/
theorem c1_http_error_escapes :
    run_pipeline w400 (fun _ => none) 5 [] 0 0 1 = (.error .runtimeError, []) := rfl

/-- C1 (amended): containment holds only at the webhook boundary: whenever
a run does complete, every webhook attempt is accounted for — the posted
count plus the recorded error lines equals exactly the number of webhook
attempts, so each per-meeting delivery failure is in the error list. -/
theorem c1_run_summary_accounts_failures (w : World) (pts : String → Option Int)
    (fuel : Nat) (only : List String) (now days : Int) (pages : Nat)
    (s : Summary) (n : Nat) (tr : List String)
    (h : run_pipeline w pts fuel only now days pages = (.ok (s, n), tr)) :
    s.transcripts_posted + s.errors.length = n := by
  unfold run_pipeline at h
  cases hp : prep w fuel only with
  | error e => rw [hp] at h; simp at h
  | ok r =>
    rw [hp] at h
    cases r with
    | early s0 =>
      have hcl := (prep_clean w fuel only _ hp).1 s0 rfl
      dsimp only at h
      cases h
      simp [hcl.1, hcl.2]
    | go s0 groups =>
      dsimp only at h
      obtain ⟨-, hacct⟩ :=
        orgLoop_ok w pts (now - days * 86400) pages groups s0 0 [] s n tr h
      have hcl := (prep_clean w fuel only _ hp).2 s0 groups rfl
      rw [hcl.1, hcl.2.1] at hacct
      simpa using hacct

/-- Witness: on the healthy world the run completes with one posted
transcript, one webhook error line, and two webhook attempts. -/
theorem c1_run_summary_accounts_failures_witness :
    sOK.transcripts_posted + sOK.errors.length = 2 :=
  c1_run_summary_accounts_failures wOK (fun _ => none) 5 [] 0 0 1 sOK 2 ["own@x.com"] rfl

/-- C7: the meeting-fetch trace of a run never repeats an organizer, and a
completed run's trace is exactly the duplicate-free list of grouping keys:
every organizer owning at least one leaf is fetched exactly once (however
many leaves map to it — the keys do not depend on the per-key leaf lists),
and organizers without leaves are never fetched. -/
theorem c7_fetch_once_per_organizer (w : World) (pts : String → Option Int)
    (fuel : Nat) (only : List String) (now days : Int) (pages : Nat)
    (res : Except PyErr (Summary × Nat)) (tr : List String)
    (h : run_pipeline w pts fuel only now days pages = (res, tr)) :
    tr.Nodup ∧
    (∀ s groups s2 n2, prep w fuel only = .ok (.go s groups) → res = .ok (s2, n2) →
      tr = groups.map Prod.fst ∧
      ∀ org, tr.count org = if org ∈ groups.map Prod.fst then 1 else 0) := by
  unfold run_pipeline at h
  cases hp : prep w fuel only with
  | error e =>
    rw [hp] at h
    cases h
    refine ⟨List.nodup_nil, ?_⟩
    intro s groups s2 n2 hp0 hres
    cases hp0
  | ok r =>
    rw [hp] at h
    cases r with
    | early s0 =>
      dsimp only at h
      cases h
      refine ⟨List.nodup_nil, ?_⟩
      intro s groups s2 n2 hp0 hres
      cases hp0
    | go s0 groups0 =>
      dsimp only at h
      have hnd : (groups0.map Prod.fst).Nodup :=
        ((prep_clean w fuel only _ hp).2 s0 groups0 rfl).2.2
      constructor
      · obtain ⟨t, t2, h1, h2⟩ :=
          orgLoop_trace w pts (now - days * 86400) pages groups0 s0 0 []
        have htr : tr = t := by
          have := congrArg Prod.snd h
          simp only at this
          rw [← this, h1]
          simp
        rw [htr]
        rw [h2] at hnd
        exact (List.nodup_append.mp hnd).1
      · intro s groups s2 n2 hp0 hres
        cases hp0
        subst hres
        obtain ⟨h1, -⟩ :=
          orgLoop_ok w pts (now - days * 86400) pages groups0 s0 0 [] s2 n2 tr h
        simp only [List.nil_append] at h1
        refine ⟨h1, fun org => ?_⟩
        rw [h1]
        by_cases hm : org ∈ groups0.map Prod.fst
        · rw [if_pos hm]
          exact List.count_eq_one_of_mem hnd hm
        · rw [if_neg hm]
          exact List.count_eq_zero_of_not_mem hm

/-- Witness: the healthy world's completed run fetched its single
organizer exactly once for its two leaves. -/
theorem c7_fetch_once_per_organizer_witness :
    (["own@x.com"] : List String).Nodup ∧
    (["own@x.com"] : List String).count "own@x.com" = 1 := by
  have h := c7_fetch_once_per_organizer wOK (fun _ => none) 5 [] 0 0 1
    (.ok (sOK, 2)) ["own@x.com"] rfl
  refine ⟨h.1, ?_⟩
  have h2 := (h.2 ⟨2, 2, 0, 0, []⟩ [("own@x.com", ["a@x.com", "b@x.com"])] sOK 2 rfl rfl).2
    "own@x.com"
  simpa using h2

/-- C10: a leaf increases `meetings_found` only by reaching a webhook
attempt: a leaf that skips (no eligible meetings, a falsy meeting id, a
missing transcript, or empty normalized text) leaves the summary — and in
particular `meetings_found` — untouched, while a leaf that attempts the
webhook adds exactly its eligible-meeting count; concretely, a leaf with
one eligible meeting whose transcript endpoints are unreachable
contributes nothing, so the final count undercounts eligible meetings. -/
theorem c10_meetings_found_only_on_webhook (w : World) (pts : String → Option Int)
    (cutoff : Int) (org cust : String) (items : List Json) (s : Summary) (n : Nat)
    (s2 : Summary) (n2 : Nat)
    (h : leafStep w pts cutoff org items cust s n = .ok (s2, n2)) :
    ((s2 = s ∧ n2 = n) ∨
      (n2 = n + 1 ∧ ∃ filtered,
        Json.filterMeetings pts org cust cutoff items = .ok filtered ∧
        filtered ≠ [] ∧ s2.meetings_found = s.meetings_found + filtered.length)) ∧
    (Json.filterMeetings (fun _ => none) "own@x.com" "a@x.com" 0 [m1w] = .ok [m1w] ∧
      leafStep w10 (fun _ => none) 0 "own@x.com" [m1w] "a@x.com" initSummary 0 =
        .ok (initSummary, 0)) := by
  refine ⟨?_, rfl, rfl⟩
  rcases leafStep_spec w pts cutoff org items cust s n s2 n2 h with
    ⟨h1, h2⟩ | ⟨h1, -, -, -, hex⟩
  · exact Or.inl ⟨h1, h2⟩
  · exact Or.inr ⟨h1, hex⟩

/-- Witness: the skipping leaf of `w10` (one eligible meeting, no
transcript) falls in the no-change branch. -/
theorem c10_meetings_found_only_on_webhook_witness :
    (initSummary = initSummary ∧ (0 : Nat) = 0) ∨
    ((0 : Nat) = 0 + 1 ∧ ∃ filtered,
      Json.filterMeetings (fun _ => none) "own@x.com" "a@x.com" 0 [m1w] = .ok filtered ∧
      filtered ≠ [] ∧ initSummary.meetings_found = initSummary.meetings_found + filtered.length) :=
  (c10_meetings_found_only_on_webhook w10 (fun _ => none) 0 "own@x.com" "a@x.com" [m1w]
    initSummary 0 initSummary 0 rfl).1
